import Mathlib

/-!
# Verification of the s3update self-update pipeline

A shallow embedding of `s3update.go` (package `s3update`, repository
`automato-io/s3update`) together with the parts of its dependencies that the
update pipeline relies on:

* `strings.Replace`, `strings.TrimSpace`, `strings.HasSuffix`,
  `hex.EncodeToString` from the Go standard library;
* `IsValid` and `Compare` from `golang.org/x/mod/semver`.

Strings are modelled as `List Char`, byte slices as `List Nat`.  The MD5
primitive (`crypto/md5`) and the gzip/tar decoders are external primitives
whose outputs are supplied by the environment model (`Oracle`); everything
the pipeline does with those outputs is embedded faithfully.

Filesystem and network effects are modelled by threading an explicit
filesystem state (the two paths the code touches: the target executable and
`<target>.bak`) and an oracle that decides, per call site, whether each
fallible operation succeeds — so a theorem quantifying over oracles covers
every interleaving of success and failure of the individual operations.
-/

namespace S3Update

/-- Go strings, modelled as lists of characters. -/
abbrev Str := List Char

/-- Go byte slices, modelled as lists of naturals (each intended < 256). -/
abbrev Bytes := List Nat

/-! ## Go standard-library string primitives used by the source -/

/-- The white-space test used by Go's `strings.TrimSpace` (`unicode.IsSpace`),
restricted to the Latin-1 range that the source's inputs can contain. -/
def goIsSpace (c : Char) : Bool :=
  c = ' ' || c = '\t' || c = '\n' || c = '\x0b' || c = '\x0c' || c = '\r' ||
  c = '\x85' || c = '\xa0'

/-- Go `strings.TrimSpace`: strip white space from both ends. -/
def trimSpace (s : Str) : Str :=
  ((s.dropWhile goIsSpace).reverse.dropWhile goIsSpace).reverse

/-- Go `strings.HasSuffix`. -/
def hasSuffix (s suffixStr : Str) : Bool :=
  suffixStr.isSuffixOf s

/-- One hex digit, lower case, as produced by Go `encoding/hex`. -/
def hexDigit (n : Nat) : Char :=
  if n < 10 then Char.ofNat ('0'.toNat + n) else Char.ofNat ('a'.toNat + (n - 10))

/-- Go `hex.EncodeToString`: each byte becomes two lower-case hex digits,
high nibble first. -/
def hexEncode (bs : Bytes) : Str :=
  (bs.map (fun b => [hexDigit (b / 16 % 16), hexDigit (b % 16)])).flatten

/-- The replacement loop of Go `strings.Replace(s, old, new, -1)` for a
non-empty pattern: scan left to right, replace each non-overlapping
occurrence, never re-scanning the replacement text just inserted.  The
fuel argument (instantiated with the input length, which every step
strictly consumes) only makes the recursion structural. -/
def replaceFuel (old new : Str) : Nat → Str → Str
  | _, [] => []
  | 0, s => s
  | fuel + 1, c :: cs =>
    if old ≠ [] ∧ old.isPrefixOf (c :: cs) then
      new ++ replaceFuel old new fuel ((c :: cs).drop old.length)
    else
      c :: replaceFuel old new fuel cs

/-- Go `strings.Replace(s, old, new, -1)`.  The empty-pattern case (never
exercised by the source, which only substitutes literal placeholders)
follows Go's documented behaviour of inserting `new` before every character
and at the end. -/
def stringsReplace (s old new : Str) : Str :=
  if old = [] then new ++ (s.map (fun c => c :: new)).flatten
  else replaceFuel old new s.length s

/-- Whether `pat` occurs as a contiguous substring of the second argument
(Go `strings.Contains`). -/
def hasInfix (pat : Str) : Str → Bool
  | [] => pat.isEmpty
  | c :: cs => pat.isPrefixOf (c :: cs) || hasInfix pat cs

/-! ## `golang.org/x/mod/semver`, as used by `runAutoUpdate` -/

namespace semver

/-- ASCII digit test, as in the Go source's explicit range checks. -/
def isDigitCh (c : Char) : Bool := '0' ≤ c && c ≤ '9'

/-- `isIdentChar` from `x/mod/semver`. -/
def isIdentChar (c : Char) : Bool :=
  ('A' ≤ c && c ≤ 'Z') || ('a' ≤ c && c ≤ 'z') || isDigitCh c || c = '-'

/-- `isBadNum` from `x/mod/semver`: an all-digit identifier with a leading
zero and more than one digit. -/
def isBadNum (v : Str) : Bool :=
  v.all isDigitCh && decide (1 < v.length) && v.head? = some '0'

/-- `isNum` from `x/mod/semver`: every character is a digit. -/
def isNum (v : Str) : Bool := v.all isDigitCh

/-- `parseInt` from `x/mod/semver`: a non-empty run of digits without a
leading zero (unless it is exactly "0"); returns the digits and the rest. -/
def parseInt (v : Str) : Option (Str × Str) :=
  match v with
  | [] => none
  | c :: _ =>
    if !isDigitCh c then none
    else
      let t := v.takeWhile isDigitCh
      let rest := v.dropWhile isDigitCh
      if c = '0' && t.length ≠ 1 then none else some (t, rest)

/-- The dot-separated segments of an identifier series, exactly as the
scanning loops of `x/mod/semver` delimit them (an empty series yields one
empty segment, as Go's `start == i` check sees it).  The fuel
(instantiated with the input length, which every step strictly consumes)
only makes the recursion structural. -/
def segsFuel : Nat → Str → List Str
  | 0, s => [s]
  | fuel + 1, s =>
    match s.dropWhile (fun c => c ≠ '.') with
    | [] => [s.takeWhile (fun c => c ≠ '.')]
    | _ :: rest2 => s.takeWhile (fun c => c ≠ '.') :: segsFuel fuel rest2

/-- The dot-separated segments of an identifier series. -/
def segs (s : Str) : List Str := segsFuel s.length s

/-- `parsePrerelease` from `x/mod/semver`: a leading `-` followed by
dot-separated identifiers (stopping at `+`), each non-empty, made of
identifier characters, and with no leading-zero numeric identifier.
Returns the prerelease including its leading `-`, and the rest. -/
def parsePrerelease (v : Str) : Option (Str × Str) :=
  match v with
  | '-' :: tail =>
    let body := tail.takeWhile (fun c => c ≠ '+')
    let rest := tail.dropWhile (fun c => c ≠ '+')
    if body.all (fun c => isIdentChar c || c = '.') &&
       (segs body).all (fun seg => !seg.isEmpty && !isBadNum seg) then
      some ('-' :: body, rest)
    else none
  | _ => none

/-- `parseBuild` from `x/mod/semver`: a leading `+` followed by
dot-separated non-empty identifier segments running to the end of the
string. -/
def parseBuild (v : Str) : Option (Str × Str) :=
  match v with
  | '+' :: tail =>
    if tail.all (fun c => isIdentChar c || c = '.') &&
       (segs tail).all (fun seg => !seg.isEmpty) then
      some ('+' :: tail, [])
    else none
  | _ => none

/-- The record filled in by `x/mod/semver.parse`. -/
structure Parsed where
  major : Str
  minor : Str
  patch : Str
  prerelease : Str
  build : Str
deriving DecidableEq, Repr

/-- The optional `-prerelease+build` tail after `vX.Y.Z`. -/
def parseTail (v : Str) : Option (Str × Str) :=
  let step : Option (Str × Str) :=
    match v with
    | '-' :: _ => parsePrerelease v
    | _ => some ([], v)
  step.bind fun (pre, v1) =>
    match v1 with
    | [] => some (pre, [])
    | '+' :: _ => (parseBuild v1).bind fun (bld, v2) =>
        if v2 = [] then some (pre, bld) else none
    | _ => none

/-- `parse` from `x/mod/semver`: requires the leading `v`; allows the
shortened forms `vX` and `vX.Y` (missing parts default to `0`). -/
def parse (v : Str) : Option Parsed :=
  match v with
  | 'v' :: rest =>
    (parseInt rest).bind fun (major, v1) =>
      match v1 with
      | [] => some ⟨major, ['0'], ['0'], [], []⟩
      | '.' :: v2 =>
        (parseInt v2).bind fun (minor, v3) =>
          match v3 with
          | [] => some ⟨major, minor, ['0'], [], []⟩
          | '.' :: v4 =>
            (parseInt v4).bind fun (patch, v5) =>
              (parseTail v5).bind fun (pre, bld) =>
                some ⟨major, minor, patch, pre, bld⟩
          | _ => none
      | _ => none
  | _ => none

/-- `semver.IsValid`. -/
def isValid (v : Str) : Bool := (parse v).isSome

/-- Byte-wise lexicographic `<` on Go strings (ASCII here). -/
def lexLt : Str → Str → Bool
  | [], [] => false
  | [], _ :: _ => true
  | _ :: _, [] => false
  | a :: as, b :: bs => if a < b then true else if b < a then false else lexLt as bs

/-- `compareInt` from `x/mod/semver`: compare canonical decimal numerals by
length, then lexicographically. -/
def compareInt (x y : Str) : Int :=
  if x = y then 0
  else if x.length < y.length then -1
  else if y.length < x.length then 1
  else if lexLt x y then -1 else 1

/-- The per-identifier decision of `comparePrerelease` (reached only for
distinct identifiers): numeric identifiers order below alphanumeric ones and
among themselves by length then lexicographically. -/
def identCmp (dx dy : Str) : Int :=
  if isNum dx != isNum dy then (if isNum dx then -1 else 1)
  else if isNum dx && decide (dx.length < dy.length) then -1
  else if isNum dx && decide (dy.length < dx.length) then 1
  else if lexLt dx dy then -1 else 1

/-- The loop of `comparePrerelease`: both strings start with `-` (or a `.`
on later iterations); walk dot-separated identifiers in lockstep.  The
fuel (instantiated with the length of the first string, which every
iteration strictly consumes) only makes the recursion structural; the
zero-fuel case is unreachable. -/
def preLoopFuel : Nat → Str → Str → Int
  | _, [], _ => -1
  | _, _ :: _, [] => 1
  | 0, _ :: _, _ :: _ => 0
  | fuel + 1, _ :: xs, _ :: ys =>
    let dx := xs.takeWhile (fun c => c ≠ '.')
    let dy := ys.takeWhile (fun c => c ≠ '.')
    if dx = dy then
      preLoopFuel fuel (xs.dropWhile (fun c => c ≠ '.')) (ys.dropWhile (fun c => c ≠ '.'))
    else identCmp dx dy

/-- The loop of `comparePrerelease`. -/
def preLoop (x y : Str) : Int := preLoopFuel x.length x y

/-- `comparePrerelease` from `x/mod/semver`: equal strings tie; an absent
prerelease orders above any present one; otherwise run the loop. -/
def comparePrerelease (x y : Str) : Int :=
  if x = y then 0
  else if x = [] then 1
  else if y = [] then -1
  else preLoop x y

/-- `semver.Compare`: an invalid version orders below any valid one;
otherwise compare major, minor, patch, then prerelease. -/
def compare (v w : Str) : Int :=
  match parse v, parse w with
  | none, none => 0
  | none, some _ => -1
  | some _, none => 1
  | some pv, some pw =>
    let c := compareInt pv.major pw.major
    if c ≠ 0 then c
    else
      let c := compareInt pv.minor pw.minor
      if c ≠ 0 then c
      else
        let c := compareInt pv.patch pw.patch
        if c ≠ 0 then c
        else comparePrerelease pv.prerelease pw.prerelease

/-! ### Semantic-version precedence, stated from the words of the spec

The definitions below restate semver.org precedence structurally •
numeric identifiers as numbers, alphanumeric ones in ASCII order, a
pre-release below its release — to be compared against the string-walking
`compare` above. -/

/-- Numeric value of a decimal digit. -/
def digitVal (c : Char) : Nat := c.toNat - '0'.toNat

/-- Numeric value of a decimal digit string (most significant first). -/
def numVal (s : Str) : Nat := s.foldl (fun n c => 10 * n + digitVal c) 0

/-- A canonical decimal numeral: non-empty, all digits, no leading zero. -/
def isCanonicalNum (s : Str) : Bool := !s.isEmpty && s.all isDigitCh && !isBadNum s

/-- A pre-release identifier as semver.org precedence sees it. -/
inductive PreIdent where
  | num (n : Nat)
  | alpha (s : Str)
deriving DecidableEq, Repr

/-- Interpretation of a raw identifier: all-digit identifiers are numeric. -/
def interpIdent (d : Str) : PreIdent :=
  if isNum d then .num (numVal d) else .alpha d

/-- The identifier tokens of a stored prerelease field (which carries its
leading `-`): drop the marker and split on dots. -/
def preTokens (x : Str) : List Str :=
  match x with
  | [] => []
  | _ :: rest => segs rest

/-- semver.org precedence on single identifiers: numeric identifiers
compare as numbers and order below alphanumeric ones, which compare
lexically in ASCII order. -/
def identLtSpec : PreIdent → PreIdent → Prop
  | .num m, .num n => m < n
  | .num _, .alpha _ => True
  | .alpha _, .num _ => False
  | .alpha s, .alpha t => List.Lex (fun a b => a < b) s t

/-- semver.org precedence on identifier lists: position by position, a
strict prefix ordering below its extensions. -/
def identsLtSpec : List PreIdent → List PreIdent → Prop
  | [], [] => False
  | [], _ :: _ => True
  | _ :: _, [] => False
  | a :: as, b :: bs => identLtSpec a b ∨ (a = b ∧ identsLtSpec as bs)

/-- semver.org: within the same numeric triple, a pre-release version
orders below the release, and two pre-releases compare by their
identifier lists. -/
def preLtSpec (x y : Str) : Prop :=
  x ≠ [] ∧ (y = [] ∨
    identsLtSpec ((preTokens x).map interpIdent) ((preTokens y).map interpIdent))

/-- semver.org precedence on parsed versions: major, minor, patch as
numbers, then the pre-release rule.  Build metadata is ignored. -/
def ltSpec (pv pw : Parsed) : Prop :=
  numVal pv.major < numVal pw.major
  ∨ (numVal pv.major = numVal pw.major ∧
     (numVal pv.minor < numVal pw.minor
      ∨ (numVal pv.minor = numVal pw.minor ∧
         (numVal pv.patch < numVal pw.patch
          ∨ (numVal pv.patch = numVal pw.patch ∧
             preLtSpec pv.prerelease pw.prerelease)))))

end semver

/-! ## The `s3update` package itself -/

/-- `Updater` holds configuration values provided by the program to be
updated (field for field as in the source). -/
structure Updater where
  currentVersion : Str
  s3VersionKey : Str
  checksumKey : Str
  s3Bucket : Str
  s3ReleaseKey : Str
  verbose : Bool
deriving DecidableEq, Repr

/-- The errors the pipeline can return, one constructor per `return err`
site; `checksumMismatch` carries the version exactly as
`fmt.Errorf("%s checksum mismatch", version)` does. -/
inductive Err where
  | noVersionSet | noBucketSet | noReleaseKeySet | noVersionKeySet
  | invalidLocalVersion
  | invalidRemoteVersion (v : Str)
  | netErr (url : Str)
  | readBodyErr
  | execPathErr | evalSymlinksErr
  | openWriteErr | copyErr | openReadErr | hashCopyErr
  | checksumMismatch (version : Str)
  | untgzOpenErr | gzipErr | tarNextErr | tarTypeErr | tarReadErr
  | createErr | writeErr
  | chmodErr | execErr
deriving DecidableEq, Repr

/-- `validate` ensures every required field is correctly set, in source
order. -/
def Updater.validate (u : Updater) : Option Err :=
  bif u.currentVersion == [] then some .noVersionSet
  else bif u.s3Bucket == [] then some .noBucketSet
  else bif u.s3ReleaseKey == [] then some .noReleaseKeySet
  else bif u.s3VersionKey == [] then some .noVersionKeySet
  else none

/-- The literal placeholder `{{VERSION}}`. -/
def phVERSION : Str := "\x7b\x7bVERSION\x7d\x7d".toList

/-- The literal placeholder `{{ARCH}}`. -/
def phARCH : Str := "\x7b\x7bARCH\x7d\x7d".toList

/-- The literal placeholder `{{OS}}`. -/
def phOS : Str := "\x7b\x7bOS\x7d\x7d".toList

/-- `generateURL` composes the download or checksum URL.  `goos` and
`goarch` stand for the compile-time constants `runtime.GOOS` and
`runtime.GOARCH`; the source substitutes `{{VERSION}}`, then `{{ARCH}}`,
then `{{OS}}`, each with `strings.Replace(..., -1)`. -/
def generateURL (goos goarch : Str) (bucket pathTemplate version : Str) : Str :=
  let p := stringsReplace pathTemplate phVERSION version
  let p := stringsReplace p phARCH goarch
  let p := stringsReplace p phOS goos
  "https://".toList ++ bucket ++ ".s3.amazonaws.com/".toList ++ p

/-- The fixed URL of the version object, as hard-coded in
`fetchRemoteVersion`. -/
def versionURL (bucket : Str) : Str :=
  "https://".toList ++ bucket ++ ".s3.amazonaws.com/VERSION".toList

/-! ## Effect model

The pipeline touches exactly two filesystem entries: the resolved target
executable and `<target>.bak`.  `FS` records the content at each (`none` =
the path does not exist).  `Oracle` fixes, per call site, whether each
fallible external operation succeeds and what data the network, the hash
primitive and the archive decoder deliver; quantifying over oracles ranges
over every interleaving of success and failure of the individual
operations. -/

/-- Contents of the two paths the code touches. -/
structure FS where
  target : Option Bytes
  backup : Option Bytes
deriving DecidableEq, Repr

/-- Environment model: per-call-site success of fallible operations plus
the data delivered by the network, the hash primitive and the archive
decoder. -/
structure Oracle where
  /-- value of the `S3UPDATE_DISABLED` environment variable -/
  envDisabled : Str
  /-- `runtime.GOOS` -/
  goos : Str
  /-- `runtime.GOARCH` -/
  goarch : Str
  /-- `crypto/md5` digest of a byte string (raw 16-byte value) -/
  md5 : Bytes → Bytes
  /-- body of `GET <bucket>/VERSION`; `none` = transport error -/
  versionGet : Option Str
  /-- `ioutil.ReadAll` on the version response succeeds -/
  versionReadOk : Bool
  /-- `http.Get(downloadURL)` succeeds -/
  downloadGetOk : Bool
  /-- bytes delivered by the download stream when the copy completes -/
  artifact : Bytes
  /-- `http.Get(checksumURL)` succeeds -/
  checksumGetOk : Bool
  /-- `ioutil.ReadAll` on the checksum response succeeds -/
  checksumReadOk : Bool
  /-- the checksum response body -/
  checksumBody : Str
  /-- `os.Executable` succeeds -/
  execPathOk : Bool
  /-- `filepath.EvalSymlinks` succeeds -/
  evalSymlinksOk : Bool
  /-- `os.Stat(target)` does not report an error (given the file exists) -/
  statOk : Bool
  /-- `os.Rename(target, backup)` succeeds (its result is ignored) -/
  renameBackupOk : Bool
  /-- `os.OpenFile(target, O_RDWR|O_CREATE|O_TRUNC, 0755)` succeeds -/
  openWriteOk : Bool
  /-- `io.Copy(f, progressR)` completes -/
  copyOk : Bool
  /-- bytes left behind by an interrupted copy or write -/
  leftover : Bytes
  /-- `os.Open(target)` for digest verification succeeds -/
  openReadOk : Bool
  /-- `io.Copy(h, f)` into the hasher completes -/
  hashCopyOk : Bool
  /-- the best-effort `os.Rename(backup, target)` restore succeeds -/
  restoreOk : Bool
  /-- `os.Open` inside `untgzFile` succeeds -/
  untgzOpenOk : Bool
  /-- `gzip.NewReader` succeeds -/
  gzipOk : Bool
  /-- `tar.Reader.Next` succeeds -/
  tarNextOk : Bool
  /-- the first tar entry is a regular file -/
  tarIsReg : Bool
  /-- `ioutil.ReadAll(tr)` succeeds -/
  tarReadOk : Bool
  /-- bytes of the single decompressed tar entry -/
  entry : Bytes
  /-- `os.Remove(filename)` inside `untgzFile` succeeds (result ignored) -/
  removeOldOk : Bool
  /-- `os.Create(filename)` inside `untgzFile` succeeds -/
  createOk : Bool
  /-- `w.Write(data)` inside `untgzFile` succeeds -/
  writeEntryOk : Bool
  /-- `os.Chmod(target, 0755)` succeeds -/
  chmodOk : Bool
  /-- the commit `os.Remove(backup)` succeeds (result ignored) -/
  removeBackupOk : Bool
  /-- `syscall.Exec` succeeds (and then never returns) -/
  execOk : Bool

/-- `os.Rename(target, target+".bak")`: moves the content when the source
exists and the operation succeeds, otherwise leaves the filesystem as is. -/
def renameToBackup (ok : Bool) (fs : FS) : FS :=
  match ok, fs.target with
  | true, some c => { target := none, backup := some c }
  | _, _ => fs

/-- The best-effort `os.Rename(backup, target)` restore: moves the backup
over the target when the backup exists and the operation succeeds. -/
def restore (ok : Bool) (fs : FS) : FS :=
  match ok, fs.backup with
  | true, some c => { target := some c, backup := none }
  | _, _ => fs

/-- How `downloadUpdate` ends: a normal return (with or without error) or a
successful `syscall.Exec` that replaces the process image. -/
inductive DOut where
  | ret (e : Option Err)
  | execed
deriving DecidableEq, Repr

/-- Result of one `downloadUpdate` attempt: its outcome, the final
filesystem, every filesystem state visited before the commit step (the
`os.Remove(backup)`), and the URLs requested. -/
structure DRes where
  out : DOut
  fs : FS
  pre : List FS
  net : List Str
deriving DecidableEq, Repr

/-- Result of `untgzFile`: error if any, final filesystem, states visited. -/
structure URes where
  err : Option Err
  fs : FS
  pre : List FS
deriving DecidableEq, Repr

/-- The filesystem after the `os.Remove(filename)` inside `untgzFile`
(result ignored by the source). -/
def untgzRemoved (o : Oracle) (fs : FS) : FS :=
  bif o.removeOldOk then ⟨none, fs.backup⟩ else fs

/-- `untgzFile`: open, gunzip, read the single tar entry (which must be a
regular file), then `os.Remove` the file (result ignored), recreate it and
write the entry bytes.  Gzip/tar decoding is abstracted by the oracle. -/
def untgzFile (o : Oracle) (fs : FS) : URes :=
  bif !o.untgzOpenOk then ⟨some .untgzOpenErr, fs, [fs]⟩
  else bif !o.gzipOk then ⟨some .gzipErr, fs, [fs]⟩
  else bif !o.tarNextOk then ⟨some .tarNextErr, fs, [fs]⟩
  else bif !o.tarIsReg then ⟨some .tarTypeErr, fs, [fs]⟩
  else bif !o.tarReadOk then ⟨some .tarReadErr, fs, [fs]⟩
  else bif !o.createOk then
    ⟨some .createErr, untgzRemoved o fs, [fs, untgzRemoved o fs]⟩
  else bif !o.writeEntryOk then
    ⟨some .writeErr, ⟨some o.leftover, (untgzRemoved o fs).backup⟩,
      [fs, untgzRemoved o fs, ⟨some [], (untgzRemoved o fs).backup⟩,
        ⟨some o.leftover, (untgzRemoved o fs).backup⟩]⟩
  else
    ⟨none, ⟨some o.entry, (untgzRemoved o fs).backup⟩,
      [fs, untgzRemoved o fs, ⟨some [], (untgzRemoved o fs).backup⟩,
        ⟨some o.entry, (untgzRemoved o fs).backup⟩]⟩

/-- The filesystem after the (unchecked) `os.Rename(target, target+".bak")`. -/
def bak (o : Oracle) (fs0 : FS) : FS := renameToBackup o.renameBackupOk fs0

/-- The filesystem right after `os.OpenFile(target, ..|O_TRUNC, 0755)`. -/
def truncated (o : Oracle) (fs0 : FS) : FS := ⟨some [], (bak o fs0).backup⟩

/-- The filesystem after an interrupted `io.Copy` into the target. -/
def halfWritten (o : Oracle) (fs0 : FS) : FS := ⟨some o.leftover, (bak o fs0).backup⟩

/-- The filesystem after the artifact has been fully streamed into the
target. -/
def written (o : Oracle) (fs0 : FS) : FS := ⟨some o.artifact, (bak o fs0).backup⟩

/-- The filesystem after the commit `os.Remove(backup)` (result ignored). -/
def commitFS (o : Oracle) (fs4 : FS) : FS :=
  bif o.removeBackupOk && fs4.backup.isSome then ⟨fs4.target, none⟩ else fs4

/-- The tail of `downloadUpdate` after the (possibly skipped) archive step:
`os.Chmod` (restore-and-return on failure), then the commit
`os.Remove(backup)` (result ignored; the commit point, so `pre` stops
here), then `syscall.Exec`. -/
def downloadUpdateFinish (o : Oracle) (downloadURL checksumURL : Str)
    (fs4 : FS) (pre4 : List FS) : DRes :=
  bif !o.chmodOk then
    ⟨.ret (some .chmodErr), restore o.restoreOk fs4,
      pre4 ++ [restore o.restoreOk fs4], [downloadURL, checksumURL]⟩
  else bif o.execOk then
    ⟨.execed, commitFS o fs4, pre4 ++ [fs4], [downloadURL, checksumURL]⟩
  else
    ⟨.ret (some .execErr), commitFS o fs4, pre4 ++ [fs4], [downloadURL, checksumURL]⟩

/-- `downloadUpdate`, statement for statement: fetch artifact and checksum,
resolve the running executable, quiet-abort if the target has vanished,
rename it to `<target>.bak` (result ignored), stream the artifact over the
target, re-open and hash it, compare the raw checksum body with the hex
digest, optionally un-tgz, then chmod, commit and `syscall.Exec` the new
binary (`downloadUpdateFinish`). -/
def downloadUpdate (o : Oracle) (downloadURL checksumURL version : Str)
    (fs0 : FS) : DRes :=
  bif !o.downloadGetOk then
    ⟨.ret (some (.netErr downloadURL)), fs0, [fs0], [downloadURL]⟩
  else bif !o.checksumGetOk then
    ⟨.ret (some (.netErr checksumURL)), fs0, [fs0], [downloadURL, checksumURL]⟩
  else bif !o.checksumReadOk then
    ⟨.ret (some .readBodyErr), fs0, [fs0], [downloadURL, checksumURL]⟩
  else bif !o.execPathOk then
    ⟨.ret (some .execPathErr), fs0, [fs0], [downloadURL, checksumURL]⟩
  else bif !o.evalSymlinksOk then
    ⟨.ret (some .evalSymlinksErr), fs0, [fs0], [downloadURL, checksumURL]⟩
  else bif !(o.statOk && fs0.target.isSome) then
    -- `os.Stat` failed: the cycle aborts quietly with a nil error
    ⟨.ret none, fs0, [fs0], [downloadURL, checksumURL]⟩
  else bif !o.openWriteOk then
    ⟨.ret (some .openWriteErr), restore o.restoreOk (bak o fs0),
      [fs0, bak o fs0, restore o.restoreOk (bak o fs0)], [downloadURL, checksumURL]⟩
  else bif !o.copyOk then
    ⟨.ret (some .copyErr), restore o.restoreOk (halfWritten o fs0),
      [fs0, bak o fs0, truncated o fs0, halfWritten o fs0,
        restore o.restoreOk (halfWritten o fs0)], [downloadURL, checksumURL]⟩
  else bif !o.openReadOk then
    -- source returns here WITHOUT restoring the backup
    ⟨.ret (some .openReadErr), written o fs0,
      [fs0, bak o fs0, truncated o fs0, written o fs0], [downloadURL, checksumURL]⟩
  else bif !o.hashCopyOk then
    ⟨.ret (some .hashCopyErr), restore o.restoreOk (written o fs0),
      [fs0, bak o fs0, truncated o fs0, written o fs0,
        restore o.restoreOk (written o fs0)], [downloadURL, checksumURL]⟩
  else bif o.checksumBody != hexEncode (o.md5 o.artifact) then
    ⟨.ret (some (.checksumMismatch version)), restore o.restoreOk (written o fs0),
      [fs0, bak o fs0, truncated o fs0, written o fs0,
        restore o.restoreOk (written o fs0)], [downloadURL, checksumURL]⟩
  else bif hasSuffix downloadURL ".tgz".toList then
    match (untgzFile o (written o fs0)).err with
    | some e =>
      ⟨.ret (some e), restore o.restoreOk (untgzFile o (written o fs0)).fs,
        ([fs0, bak o fs0, truncated o fs0, written o fs0] ++
            (untgzFile o (written o fs0)).pre) ++
          [restore o.restoreOk (untgzFile o (written o fs0)).fs],
        [downloadURL, checksumURL]⟩
    | none =>
      downloadUpdateFinish o downloadURL checksumURL (untgzFile o (written o fs0)).fs
        ([fs0, bak o fs0, truncated o fs0, written o fs0] ++
          (untgzFile o (written o fs0)).pre)
  else
    downloadUpdateFinish o downloadURL checksumURL (written o fs0)
      [fs0, bak o fs0, truncated o fs0, written o fs0]

/-- `fetchRemoteVersion`: GET the fixed version URL, read the body, trim
surrounding whitespace, and validate it as a semantic version. -/
def fetchRemoteVersion (o : Oracle) (bucket : Str) : Except Err Str :=
  match o.versionGet with
  | none => .error (.netErr (versionURL bucket))
  | some raw =>
    bif !o.versionReadOk then .error .readBodyErr
    else
      let remoteVersion := trimSpace raw
      bif !(semver.isValid remoteVersion) then
        .error (.invalidRemoteVersion remoteVersion)
      else .ok remoteVersion

/-- How a `runAutoUpdate`/`AutoUpdate` call ends: a normal return, the
`os.Exit(0)` after a nil return from `downloadUpdate`, or a successful
`syscall.Exec`. -/
inductive ROut where
  | ret (e : Option Err)
  | exit0
  | execed
deriving DecidableEq, Repr

/-- Result of one `runAutoUpdate`/`AutoUpdate` run. -/
structure RRes where
  out : ROut
  fs : FS
  pre : List FS
  net : List Str
deriving DecidableEq, Repr

/-- `runAutoUpdate`: validate the local version, fetch the remote one, and
when `semver.Compare(local, remote) == -1` run `downloadUpdate` on the two
generated URLs; a nil return from `downloadUpdate` leads to `os.Exit(0)`. -/
def runAutoUpdate (o : Oracle) (u : Updater) (fs0 : FS) : RRes :=
  bif !(semver.isValid u.currentVersion) then
    ⟨.ret (some .invalidLocalVersion), fs0, [fs0], []⟩
  else
    match fetchRemoteVersion o u.s3Bucket with
    | .error e => ⟨.ret (some e), fs0, [fs0], [versionURL u.s3Bucket]⟩
    | .ok remoteVersion =>
      bif semver.compare u.currentVersion remoteVersion == -1 then
        let downloadURL := generateURL o.goos o.goarch u.s3Bucket u.s3ReleaseKey remoteVersion
        let checksumURL := generateURL o.goos o.goarch u.s3Bucket u.checksumKey remoteVersion
        let d := downloadUpdate o downloadURL checksumURL remoteVersion fs0
        match d.out with
        | .ret (some e) => ⟨.ret (some e), d.fs, d.pre, versionURL u.s3Bucket :: d.net⟩
        | .ret none => ⟨.exit0, d.fs, d.pre, versionURL u.s3Bucket :: d.net⟩
        | .execed => ⟨.execed, d.fs, d.pre, versionURL u.s3Bucket :: d.net⟩
      else ⟨.ret none, fs0, [fs0], [versionURL u.s3Bucket]⟩

/-- `AutoUpdate`: skip everything when `S3UPDATE_DISABLED` is non-empty,
then validate the configuration, then run the cycle. -/
def AutoUpdate (o : Oracle) (u : Updater) (fs0 : FS) : RRes :=
  bif o.envDisabled != [] then ⟨.ret none, fs0, [], []⟩
  else
    match u.validate with
    | some e => ⟨.ret (some e), fs0, [], []⟩
    | none => runAutoUpdate o u fs0

/-! ## Concrete fixtures used by witnesses and counterexamples -/

/-- An environment in which every external operation succeeds, the remote
version is `v1.1.0` (with a trailing newline, as a typical stored version
object has), the artifact is the byte string `[2]`, and the checksum object
holds exactly the artifact's digest.  The digest primitive is a stand-in
function (the pipeline only ever compares digests for equality). -/
def oracleAllOk : Oracle :=
  { envDisabled := [], goos := "linux".toList, goarch := "amd64".toList,
    md5 := fun _ => [0xab], versionGet := some "v1.1.0\n".toList,
    versionReadOk := true, downloadGetOk := true, artifact := [2],
    checksumGetOk := true, checksumReadOk := true, checksumBody := "ab".toList,
    execPathOk := true, evalSymlinksOk := true, statOk := true,
    renameBackupOk := true, openWriteOk := true, copyOk := true,
    leftover := [9], openReadOk := true, hashCopyOk := true, restoreOk := true,
    untgzOpenOk := true, gzipOk := true, tarNextOk := true, tarIsReg := true,
    tarReadOk := true, entry := [7], removeOldOk := true, createOk := true,
    writeEntryOk := true, chmodOk := true, removeBackupOk := true, execOk := true }

/-- A configuration whose required fields are all set, local version
`v1.0.0`. -/
def updaterDemo : Updater :=
  { currentVersion := "v1.0.0".toList, s3VersionKey := "tool/VERSION".toList,
    checksumKey := "c-\x7b\x7bVERSION\x7d\x7d".toList, s3Bucket := ['b'],
    s3ReleaseKey := "r-\x7b\x7bOS\x7d\x7d".toList, verbose := false }

/-- A pre-attempt filesystem: the running binary has content `[1]`, no
stale backup. -/
def fsDemo : FS := ⟨some [1], none⟩

/-- Substitution in the opposite pass order (`{{OS}}`, then `{{ARCH}}`,
then `{{VERSION}}`), stated from the claim's words ("the result is
independent of the order in which the three placeholders are substituted")
purely to compare against `generateURL`'s fixed order. -/
def generateURLOrderSwapped (goos goarch : Str) (bucket pathTemplate version : Str) : Str :=
  let p := stringsReplace pathTemplate phOS goos
  let p := stringsReplace p phARCH goarch
  let p := stringsReplace p phVERSION version
  "https://".toList ++ bucket ++ ".s3.amazonaws.com/".toList ++ p

/-- C1/C8 fixture: the checksum object holds `"zz"`, which differs from
the artifact's digest. -/
def oracleMismatch : Oracle := { oracleAllOk with checksumBody := "zz".toList }

/-- C8 fixture: the checksum object holds the correct digest followed by a
newline. -/
def oracleTrailingNewline : Oracle :=
  { oracleAllOk with checksumBody := "ab\n".toList }

/-- C2 fixture: the initial backup rename fails (its result is ignored by
the source) while everything else succeeds. -/
def oracleNoRename : Oracle := { oracleAllOk with renameBackupOk := false }

/-- C1 fixture: the backup rename fails and the checksum mismatches. -/
def oracleNoRenameMismatch : Oracle :=
  { oracleAllOk with renameBackupOk := false, checksumBody := "zz".toList }

/-- C4 fixture: re-opening the freshly written target for verification
fails. -/
def oracleNoReopen : Oracle := { oracleAllOk with openReadOk := false }

/-- C5 fixture: `os.Stat` on the target fails at the backup step. -/
def oracleVanished : Oracle := { oracleAllOk with statOk := false }

/-- The safety property of one filesystem state during an attempt on a
binary whose original content is `orig`: the original is intact at the
target path, or parked at the backup path. -/
def KeepsOriginal (orig : Bytes) (s : FS) : Prop :=
  s.target = some orig ∨ s.backup = some orig

instance (orig : Bytes) (s : FS) : Decidable (KeepsOriginal orig s) := by
  unfold KeepsOriginal; infer_instance

/-! ## General lemmas about the embedded primitives -/

/-- When the pattern does not occur in the input, the replacement loop is
the identity (any fuel). -/
theorem replaceFuel_no_occurrence (old new : Str) :
    ∀ (fuel : Nat) (s : Str), hasInfix old s = false →
      replaceFuel old new fuel s = s := by
  intro fuel
  induction fuel with
  | zero => intro s h; cases s <;> rfl
  | succ n ih =>
    intro s h
    cases s with
    | nil => rfl
    | cons c cs =>
      simp only [hasInfix, Bool.or_eq_false_iff] at h
      simp only [replaceFuel, h.1, Bool.false_eq_true, and_false, if_false]
      exact congrArg (c :: ·) (ih cs h.2)

/-- Go `strings.Replace` is the identity when the pattern does not occur in
the input. -/
theorem stringsReplace_no_occurrence (s old new : Str) (h : hasInfix old s = false) :
    stringsReplace s old new = s := by
  unfold stringsReplace
  by_cases ho : old = []
  · subst ho
    cases s with
    | nil => simp [hasInfix, List.isEmpty] at h
    | cons c cs => simp [hasInfix, List.isPrefixOf] at h
  · simp only [ho, if_false]
    exact replaceFuel_no_occurrence old new s.length s h

/-- Replacing a non-empty pattern inside the pattern itself yields exactly
the replacement value: the single left-to-right pass consumes the whole
input and never re-scans what it inserted. -/
theorem stringsReplace_pattern_itself (old new : Str) (h : old ≠ []) :
    stringsReplace old old new = new := by
  unfold stringsReplace
  simp only [h, if_false]
  cases old with
  | nil => exact absurd rfl h
  | cons c cs =>
    have hpref : (c :: cs).isPrefixOf (c :: cs) = true := by
      rw [List.isPrefixOf_iff_prefix]
    simp only [List.length_cons, replaceFuel, ne_eq, reduceCtorEq,
      not_false_eq_true, hpref, and_true, if_true, true_and]
    rw [show List.drop (cs.length + 1) (c :: cs) = [] by
      rw [← List.length_cons c cs]; exact List.drop_length _]
    simp [replaceFuel]

/-! ## Semantic-version precedence: the string-walking comparison agrees
with the structural order -/

namespace semver

/-- A digit character's code point lies between 48 and 57. -/
theorem digit_toNat_bounds (c : Char) (h : isDigitCh c = true) :
    48 ≤ c.toNat ∧ c.toNat ≤ 57 := by
  unfold isDigitCh at h
  simp only [Bool.and_eq_true, decide_eq_true_eq] at h
  obtain ⟨h1, h2⟩ := h
  exact ⟨Char.le_def.mp h1, Char.le_def.mp h2⟩

/-- Character order is code-point order. -/
theorem char_lt_iff_toNat (c d : Char) : c < d ↔ c.toNat < d.toNat :=
  ⟨fun h => Char.lt_def.mp h, fun h => Char.lt_def.mpr h⟩

/-- Digit characters with equal code points are equal. -/
theorem char_toNat_inj (c d : Char) (h : c.toNat = d.toNat) : c = d := by
  have := congrArg Char.ofNat h
  rwa [Char.ofNat_toNat, Char.ofNat_toNat] at this

/-- On digit characters, character order is digit-value order. -/
theorem digitVal_lt_iff (c d : Char) (hc : isDigitCh c = true)
    (hd : isDigitCh d = true) : c < d ↔ digitVal c < digitVal d := by
  have bc := digit_toNat_bounds c hc
  have bd := digit_toNat_bounds d hd
  rw [char_lt_iff_toNat]
  unfold digitVal
  have h48 : '0'.toNat = 48 := rfl
  omega

/-- On digit characters, equal digit values mean equal characters. -/
theorem digitVal_inj (c d : Char) (hc : isDigitCh c = true)
    (hd : isDigitCh d = true) (h : digitVal c = digitVal d) : c = d := by
  have bc := digit_toNat_bounds c hc
  have bd := digit_toNat_bounds d hd
  unfold digitVal at h
  have h48 : '0'.toNat = 48 := rfl
  exact char_toNat_inj c d (by omega)

/-- Folding the numeral evaluator from an accumulator. -/
theorem numVal_acc (s : Str) : ∀ n : Nat,
    s.foldl (fun n c => 10 * n + digitVal c) n = n * 10 ^ s.length + numVal s := by
  induction s with
  | nil => intro n; simp [numVal]
  | cons c cs ih =>
    intro n
    show cs.foldl _ (10 * n + digitVal c) = _
    rw [ih (10 * n + digitVal c)]
    have : numVal (c :: cs) = (digitVal c) * 10 ^ cs.length + numVal cs := by
      show cs.foldl _ (10 * 0 + digitVal c) = _
      rw [ih (10 * 0 + digitVal c)]
      ring
    rw [List.length_cons, this]
    ring

/-- Peel the leading digit off a numeral. -/
theorem numVal_cons (c : Char) (cs : Str) :
    numVal (c :: cs) = digitVal c * 10 ^ cs.length + numVal cs := by
  show cs.foldl _ (10 * 0 + digitVal c) = _
  rw [numVal_acc cs (10 * 0 + digitVal c)]
  ring

/-- A digit string's value is below `10 ^ length`. -/
theorem numVal_lt_pow (s : Str) (h : s.all isDigitCh = true) :
    numVal s < 10 ^ s.length := by
  induction s with
  | nil => simp [numVal]
  | cons c cs ih =>
    simp only [List.all_cons, Bool.and_eq_true] at h
    have hb := digit_toNat_bounds c h.1
    have hd : digitVal c ≤ 9 := by
      unfold digitVal
      have h48 : '0'.toNat = 48 := rfl
      omega
    have ht := ih h.2
    rw [numVal_cons, List.length_cons]
    have h10 : digitVal c * 10 ^ cs.length + 10 ^ cs.length ≤ 10 ^ (cs.length + 1) := by
      have : (digitVal c + 1) * 10 ^ cs.length ≤ 10 * 10 ^ cs.length :=
        Nat.mul_le_mul_right _ (by omega)
      calc digitVal c * 10 ^ cs.length + 10 ^ cs.length
          = (digitVal c + 1) * 10 ^ cs.length := by ring
        _ ≤ 10 * 10 ^ cs.length := this
        _ = 10 ^ (cs.length + 1) := by ring
    omega

/-- A numeral not starting with `0` is at least `10 ^ (length - 1)`. -/
theorem pow_le_numVal (c : Char) (cs : Str)
    (h : (c :: cs).all isDigitCh = true) (hc : c ≠ '0') :
    10 ^ cs.length ≤ numVal (c :: cs) := by
  simp only [List.all_cons, Bool.and_eq_true] at h
  have hb := digit_toNat_bounds c h.1
  have h1 : 1 ≤ digitVal c := by
    unfold digitVal
    have h48 : '0'.toNat = 48 := rfl
    rcases Nat.lt_or_ge 48 c.toNat with hlt | hge
    · omega
    · exact absurd (char_toNat_inj c '0' (by omega)) hc
  rw [numVal_cons]
  calc 10 ^ cs.length = 1 * 10 ^ cs.length := by ring
    _ ≤ digitVal c * 10 ^ cs.length := Nat.mul_le_mul_right _ h1
    _ ≤ digitVal c * 10 ^ cs.length + numVal cs := Nat.le_add_right _ _

/-- `lexLt` decides Mathlib's lexicographic strict order on strings. -/
theorem lexLt_iff_lex (x : Str) : ∀ y : Str,
    lexLt x y = true ↔ List.Lex (fun a b : Char => a < b) x y := by
  induction x with
  | nil =>
    intro y
    cases y with
    | nil =>
      constructor
      · intro h; simp [lexLt] at h
      · intro h; cases h
    | cons b bs => exact ⟨fun _ => List.Lex.nil, fun _ => rfl⟩
  | cons a as ih =>
    intro y
    cases y with
    | nil =>
      constructor
      · intro h; simp [lexLt] at h
      · intro h; cases h
    | cons b bs =>
      show (if a < b then true else if b < a then false else lexLt as bs) = true ↔ _
      by_cases hab : a < b
      · rw [if_pos hab]
        exact ⟨fun _ => List.Lex.rel hab, fun _ => rfl⟩
      · by_cases hba : b < a
        · rw [if_neg hab, if_pos hba]
          constructor
          · intro h; exact absurd h (by simp)
          · intro h
            cases h with
            | rel h2 => exact absurd h2 hab
            | cons h2 => exact absurd hba (lt_irrefl a)
        · have heq : a = b := le_antisymm (not_lt.mp hba) (not_lt.mp hab)
          subst heq
          rw [if_neg (lt_irrefl a), if_neg (lt_irrefl a)]
          constructor
          · intro h; exact List.Lex.cons ((ih bs).mp h)
          · intro h
            cases h with
            | rel h2 => exact absurd h2 (lt_irrefl a)
            | cons h2 => exact (ih bs).mpr h2

/-- The lexicographic strict order is irreflexive. -/
theorem lex_irrefl (s : Str) : ¬ List.Lex (fun a b : Char => a < b) s s := by
  induction s with
  | nil => intro h; cases h
  | cons a as ih =>
    intro h
    cases h with
    | rel h2 => exact lt_irrefl a h2
    | cons h2 => exact ih h2

/-- Strings unrelated by `lexLt` in both directions are equal. -/
theorem lexLt_both_false (x : Str) : ∀ y : Str,
    lexLt x y = false → lexLt y x = false → x = y := by
  induction x with
  | nil =>
    intro y h1 _
    cases y with
    | nil => rfl
    | cons b bs => simp [lexLt] at h1
  | cons a as ih =>
    intro y h1 h2
    cases y with
    | nil => simp [lexLt] at h2
    | cons b bs =>
      by_cases hab : a < b
      · rw [show lexLt (a :: as) (b :: bs) =
          (if a < b then true else if b < a then false else lexLt as bs) from rfl,
          if_pos hab] at h1
        exact absurd h1 (by simp)
      · by_cases hba : b < a
        · rw [show lexLt (b :: bs) (a :: as) =
            (if b < a then true else if a < b then false else lexLt bs as) from rfl,
            if_pos hba] at h2
          exact absurd h2 (by simp)
        · have heq : a = b := le_antisymm (not_lt.mp hba) (not_lt.mp hab)
          subst heq
          rw [show lexLt (a :: as) (a :: bs) =
            (if a < a then true else if a < a then false else lexLt as bs) from rfl,
            if_neg (lt_irrefl a), if_neg (lt_irrefl a)] at h1
          rw [show lexLt (a :: bs) (a :: as) =
            (if a < a then true else if a < a then false else lexLt bs as) from rfl,
            if_neg (lt_irrefl a), if_neg (lt_irrefl a)] at h2
          rw [ih bs h1 h2]

/-- On same-length digit strings, `lexLt` is numeric comparison. -/
theorem lexLt_numVal (x : Str) : ∀ y : Str,
    x.all isDigitCh = true → y.all isDigitCh = true → x.length = y.length →
    (lexLt x y = true ↔ numVal x < numVal y) := by
  induction x with
  | nil =>
    intro y _ _ hlen
    cases y with
    | nil => simp [lexLt, numVal]
    | cons b bs => simp at hlen
  | cons a as ih =>
    intro y hx hy hlen
    cases y with
    | nil => simp at hlen
    | cons b bs =>
      simp only [List.all_cons, Bool.and_eq_true] at hx hy
      simp only [List.length_cons, Nat.add_right_cancel_iff] at hlen
      show (if a < b then true else if b < a then false else lexLt as bs) = true ↔ _
      rw [numVal_cons, numVal_cons, hlen]
      have hax := numVal_lt_pow as hx.2
      have hbx := numVal_lt_pow bs hy.2
      rw [hlen] at hax
      by_cases hab : a < b
      · rw [if_pos hab]
        have hd := (digitVal_lt_iff a b hx.1 hy.1).mp hab
        constructor
        · intro _
          calc digitVal a * 10 ^ bs.length + numVal as
              < digitVal a * 10 ^ bs.length + 10 ^ bs.length := by omega
            _ = (digitVal a + 1) * 10 ^ bs.length := by ring
            _ ≤ digitVal b * 10 ^ bs.length := Nat.mul_le_mul_right _ (by omega)
            _ ≤ digitVal b * 10 ^ bs.length + numVal bs := Nat.le_add_right _ _
        · intro _; rfl
      · by_cases hba : b < a
        · rw [if_neg hab, if_pos hba]
          have hd := (digitVal_lt_iff b a hy.1 hx.1).mp hba
          constructor
          · intro h; exact absurd h (by simp)
          · intro h
            exfalso
            have : digitVal b * 10 ^ bs.length + numVal bs
                < digitVal a * 10 ^ bs.length + numVal as := by
              calc digitVal b * 10 ^ bs.length + numVal bs
                  < digitVal b * 10 ^ bs.length + 10 ^ bs.length := by omega
                _ = (digitVal b + 1) * 10 ^ bs.length := by ring
                _ ≤ digitVal a * 10 ^ bs.length := Nat.mul_le_mul_right _ (by omega)
                _ ≤ digitVal a * 10 ^ bs.length + numVal as := Nat.le_add_right _ _
            omega
        · have heq : a = b := le_antisymm (not_lt.mp hba) (not_lt.mp hab)
          subst heq
          rw [if_neg (lt_irrefl a), if_neg (lt_irrefl a)]
          have := ih bs hx.2 hy.2 hlen
          constructor
          · intro h; have := this.mp h; omega
          · intro h; exact this.mpr (by omega)

/-- Unpacking a canonical numeral. -/
theorem canonical_parts (x : Str) (h : isCanonicalNum x = true) :
    x ≠ [] ∧ x.all isDigitCh = true ∧ (1 < x.length → x.head? ≠ some '0') := by
  unfold isCanonicalNum isBadNum at h
  simp only [Bool.and_eq_true, Bool.not_eq_eq_eq_not, Bool.not_true] at h
  obtain ⟨⟨h1, h2⟩, h3⟩ := h
  refine ⟨by simpa using h1, h2, ?_⟩
  intro hlen hhead
  rw [h2, decide_eq_true hlen, hhead] at h3
  simp at h3

/-- A shorter canonical numeral has a smaller value. -/
theorem numVal_lt_of_len_lt (x y : Str) (hx : isCanonicalNum x = true)
    (hy : isCanonicalNum y = true) (h : x.length < y.length) :
    numVal x < numVal y := by
  obtain ⟨hx1, hx2, _⟩ := canonical_parts x hx
  obtain ⟨hy1, hy2, hy3⟩ := canonical_parts y hy
  cases y with
  | nil => exact absurd rfl hy1
  | cons b bs =>
    have hxlen : 1 ≤ x.length := by
      cases x with
      | nil => exact absurd rfl hx1
      | cons _ _ => simp
    have hblen : 1 < (b :: bs).length := by
      simp only [List.length_cons] at h ⊢
      omega
    have hb0 : b ≠ '0' := by
      intro hb
      exact hy3 hblen (by rw [hb]; rfl)
    calc numVal x < 10 ^ x.length := numVal_lt_pow x hx2
      _ ≤ 10 ^ bs.length := Nat.pow_le_pow_right (by omega) (by
          simp only [List.length_cons] at h
          omega)
      _ ≤ numVal (b :: bs) := pow_le_numVal b bs hy2 hb0

/-- Canonical numerals with equal values are equal. -/
theorem numVal_inj (x y : Str) (hx : isCanonicalNum x = true)
    (hy : isCanonicalNum y = true) (h : numVal x = numVal y) : x = y := by
  obtain ⟨_, hx2, _⟩ := canonical_parts x hx
  obtain ⟨_, hy2, _⟩ := canonical_parts y hy
  rcases Nat.lt_trichotomy x.length y.length with hl | hl | hl
  · exact absurd h (Nat.ne_of_lt (numVal_lt_of_len_lt x y hx hy hl))
  · cases hlex : lexLt x y with
    | true => exact absurd h (Nat.ne_of_lt ((lexLt_numVal x y hx2 hy2 hl).mp hlex))
    | false =>
      cases hlex2 : lexLt y x with
      | true =>
        exact absurd h.symm
          (Nat.ne_of_lt ((lexLt_numVal y x hy2 hx2 hl.symm).mp hlex2))
      | false => exact lexLt_both_false x y hlex hlex2
  · exact absurd h.symm (Nat.ne_of_lt (numVal_lt_of_len_lt y x hy hx hl))

/-- `compareInt` returns `0` exactly on equal strings. -/
theorem compareInt_eq_zero_iff (x y : Str) : compareInt x y = 0 ↔ x = y := by
  unfold compareInt
  by_cases h : x = y
  · simp [h]
  · rw [if_neg h]
    split_ifs <;> simp [h]

/-- On canonical numerals, `compareInt` decides numeric order. -/
theorem compareInt_lt_iff (x y : Str) (hx : isCanonicalNum x = true)
    (hy : isCanonicalNum y = true) :
    compareInt x y = -1 ↔ numVal x < numVal y := by
  obtain ⟨_, hx2, _⟩ := canonical_parts x hx
  obtain ⟨_, hy2, _⟩ := canonical_parts y hy
  unfold compareInt
  by_cases hxy : x = y
  · subst hxy
    simp
  · rw [if_neg hxy]
    by_cases hlen : x.length < y.length
    · rw [if_pos hlen]
      constructor
      · intro _; exact numVal_lt_of_len_lt x y hx hy hlen
      · intro _; rfl
    · rw [if_neg hlen]
      by_cases hlen2 : y.length < x.length
      · rw [if_pos hlen2]
        constructor
        · intro h; exact absurd h (by decide)
        · intro h
          exact absurd h (Nat.not_lt.mpr
            (Nat.le_of_lt (numVal_lt_of_len_lt y x hy hx hlen2)))
      · have hll : x.length = y.length :=
          Nat.le_antisymm (Nat.not_lt.mp hlen2) (Nat.not_lt.mp hlen)
        rw [if_neg hlen2]
        by_cases hlex : lexLt x y = true
        · rw [if_pos hlex]
          constructor
          · intro _; exact (lexLt_numVal x y hx2 hy2 hll).mp hlex
          · intro _; rfl
        · rw [if_neg hlex]
          have hlexF : lexLt x y = false := by
            revert hlex; cases lexLt x y <;> simp
          constructor
          · intro h; exact absurd h (by decide)
          · intro h
            exfalso
            cases hlex2 : lexLt y x with
            | true =>
              have := (lexLt_numVal y x hy2 hx2 hll.symm).mp hlex2
              omega
            | false => exact hxy (lexLt_both_false x y hlexF hlex2)

/-- `dropWhile` never lengthens a list. -/
theorem dropWhile_length_le (p : Char → Bool) (l : Str) :
    (l.dropWhile p).length ≤ l.length :=
  (List.dropWhile_sublist p).length_le

/-- The head of a non-empty `dropWhile` fails the predicate. -/
theorem dropWhile_head_false (p : Char → Bool) :
    ∀ (l : Str) (d : Char) (r : Str), l.dropWhile p = d :: r → p d = false := by
  intro l
  induction l with
  | nil => intro d r h; simp [List.dropWhile] at h
  | cons c cs ih =>
    intro d r h
    by_cases hp : p c = true
    · rw [List.dropWhile_cons_of_pos hp] at h
      exact ih d r h
    · rw [List.dropWhile_cons_of_neg hp] at h
      cases h
      exact Bool.not_eq_true _ ▸ hp

/-- The segment splitter ignores surplus fuel. -/
theorem segsFuel_stable : ∀ (fuel : Nat) (s : Str), s.length ≤ fuel →
    segsFuel fuel s = segs s := by
  intro fuel
  induction fuel using Nat.strong_induction_on with
  | _ fuel ih =>
    intro s hs
    cases fuel with
    | zero =>
      have hnil : s = [] := List.eq_nil_of_length_eq_zero (Nat.le_zero.mp hs)
      subst hnil
      rfl
    | succ n =>
      cases s with
      | nil => rfl
      | cons c cs =>
        have hcs : cs.length ≤ n := by simp only [List.length_cons] at hs; omega
        rw [show segsFuel (n + 1) (c :: cs) =
          (match (c :: cs).dropWhile (fun c => c ≠ '.') with
            | [] => [(c :: cs).takeWhile (fun c => c ≠ '.')]
            | _ :: rest2 =>
              (c :: cs).takeWhile (fun c => c ≠ '.') :: segsFuel n rest2) from rfl]
        rw [show segs (c :: cs) =
          (match (c :: cs).dropWhile (fun c => c ≠ '.') with
            | [] => [(c :: cs).takeWhile (fun c => c ≠ '.')]
            | _ :: rest2 =>
              (c :: cs).takeWhile (fun c => c ≠ '.') :: segsFuel cs.length rest2) from rfl]
        cases hdw : (c :: cs).dropWhile (fun c => c ≠ '.') with
        | nil => rfl
        | cons d rest2 =>
          have hlen : rest2.length ≤ cs.length := by
            have h1 := dropWhile_length_le (fun c => decide (c ≠ '.')) (c :: cs)
            rw [hdw] at h1
            simp only [List.length_cons] at h1
            omega
          show _ :: segsFuel n rest2 = _ :: segsFuel cs.length rest2
          rw [ih n (Nat.lt_succ_self n) rest2 (le_trans hlen hcs),
            ih cs.length (Nat.lt_succ_of_le hcs) rest2 hlen]

/-- One-step unfolding of the segment splitter. -/
theorem segs_eq (s : Str) : segs s =
    match s.dropWhile (fun c => c ≠ '.') with
    | [] => [s.takeWhile (fun c => c ≠ '.')]
    | _ :: rest2 => s.takeWhile (fun c => c ≠ '.') :: segs rest2 := by
  cases s with
  | nil => rfl
  | cons c cs =>
    rw [show segs (c :: cs) =
      (match (c :: cs).dropWhile (fun c => c ≠ '.') with
        | [] => [(c :: cs).takeWhile (fun c => c ≠ '.')]
        | _ :: rest2 =>
          (c :: cs).takeWhile (fun c => c ≠ '.') :: segsFuel cs.length rest2) from rfl]
    cases hdw : (c :: cs).dropWhile (fun c => c ≠ '.') with
    | nil => rfl
    | cons d rest2 =>
      have hlen : rest2.length ≤ cs.length := by
        have h1 := dropWhile_length_le (fun c => decide (c ≠ '.')) (c :: cs)
        rw [hdw] at h1
        simp only [List.length_cons] at h1
        omega
      show _ :: segsFuel cs.length rest2 = _ :: segs rest2
      rw [segsFuel_stable cs.length rest2 hlen]

/-- `segs` always yields at least one segment. -/
theorem segs_ne_nil (s : Str) : segs s ≠ [] := by
  rw [segs_eq s]
  cases s.dropWhile (fun c => c ≠ '.') <;> simp

/-- Peeling one token off the token list of a prerelease field. -/
theorem preTokens_cons (sep : Char) (xs : Str) :
    preTokens (sep :: xs) =
      xs.takeWhile (fun c => c ≠ '.') ::
        preTokens (xs.dropWhile (fun c => c ≠ '.')) := by
  show segs xs = _
  rw [segs_eq xs]
  cases hdw : xs.dropWhile (fun c => c ≠ '.') with
  | nil => rfl
  | cons d rest2 => rfl

/-- Joining dot-separated segments (specification inverse of `segs`). -/
def joinDots : List Str → Str
  | [] => []
  | [t] => t
  | t :: ts => t ++ '.' :: joinDots ts

/-- `joinDots` recovers the split string, so `segs` is injective. -/
theorem joinDots_segs (s : Str) : joinDots (segs s) = s := by
  have H : ∀ (n : Nat) (s : Str), s.length ≤ n → joinDots (segs s) = s := by
    intro n
    induction n using Nat.strong_induction_on with
    | _ n ih =>
      intro s hs
      rw [segs_eq s]
      cases hdw : s.dropWhile (fun c => c ≠ '.') with
      | nil =>
        show s.takeWhile (fun c => c ≠ '.') = s
        conv_rhs => rw [← List.takeWhile_append_dropWhile (fun c => decide (c ≠ '.')) s]
        rw [hdw, List.append_nil]
      | cons d rest2 =>
        have hd : d = '.' := by
          simpa using dropWhile_head_false (fun c => decide (c ≠ '.')) s d rest2 hdw
        subst hd
        have hlt : rest2.length < s.length := by
          have h1 := dropWhile_length_le (fun c => decide (c ≠ '.')) s
          rw [hdw] at h1
          simp only [List.length_cons] at h1
          omega
        have hrest : joinDots (segs rest2) = rest2 :=
          ih rest2.length (Nat.lt_of_lt_of_le hlt hs) rest2 (Nat.le_refl _)
        show joinDots (s.takeWhile (fun c => c ≠ '.') :: segs rest2) = s
        obtain ⟨a, as, hsr⟩ := List.exists_cons_of_ne_nil (segs_ne_nil rest2)
        rw [hsr]
        show s.takeWhile (fun c => c ≠ '.') ++ '.' :: joinDots (a :: as) = s
        rw [← hsr, hrest]
        conv_rhs => rw [← List.takeWhile_append_dropWhile (fun c => decide (c ≠ '.')) s]
        rw [hdw]
  exact H s.length s (Nat.le_refl _)

/-- Well-formedness of the identifier tokens of a dot-separated series, as
the parsing guard of `parsePrerelease` guarantees it: every token
non-empty and no leading-zero numeric token. -/
def TokensWF (s : Str) : Prop :=
  ∀ t ∈ segs s, t ≠ [] ∧ isBadNum t = false

/-- A well-formed all-digit token is a canonical numeral. -/
theorem tokenCanonical (t : Str) (hne : t ≠ []) (hbad : isBadNum t = false)
    (hnum : isNum t = true) : isCanonicalNum t = true := by
  unfold isCanonicalNum
  unfold isNum at hnum
  simp [hnum, hbad, hne]

/-- `interpIdent` is injective on well-formed tokens. -/
theorem interpIdent_inj (dx dy : Str)
    (hx1 : dx ≠ []) (hx2 : isBadNum dx = false)
    (hy1 : dy ≠ []) (hy2 : isBadNum dy = false)
    (h : interpIdent dx = interpIdent dy) : dx = dy := by
  unfold interpIdent at h
  by_cases hnx : isNum dx = true
  · by_cases hny : isNum dy = true
    · rw [if_pos hnx, if_pos hny] at h
      injection h with h1
      exact numVal_inj dx dy (tokenCanonical dx hx1 hx2 hnx)
        (tokenCanonical dy hy1 hy2 hny) h1
    · rw [if_pos hnx, if_neg hny] at h
      exact PreIdent.noConfusion h
  · by_cases hny : isNum dy = true
    · rw [if_neg hnx, if_pos hny] at h
      exact PreIdent.noConfusion h
    · rw [if_neg hnx, if_neg hny] at h
      injection h

/-- The single-identifier order of the spec is irreflexive. -/
theorem identLtSpec_irrefl (a : PreIdent) : ¬ identLtSpec a a := by
  cases a with
  | num n => exact Nat.lt_irrefl n
  | alpha s => exact lex_irrefl s

/-- The identifier-list order of the spec is irreflexive. -/
theorem identsLtSpec_irrefl (l : List PreIdent) : ¬ identsLtSpec l l := by
  induction l with
  | nil => intro h; exact h
  | cons a as ih =>
    intro h
    have h2 : identLtSpec a a ∨ (a = a ∧ identsLtSpec as as) := h
    cases h2 with
    | inl h3 => exact identLtSpec_irrefl a h3
    | inr h3 => exact ih h3.2

/-- On distinct numeric identifiers, `identCmp` coincides with
`compareInt`. -/
theorem identCmp_eq_compareInt (dx dy : Str) (hnx : isNum dx = true)
    (hny : isNum dy = true) (hne : dx ≠ dy) :
    identCmp dx dy = compareInt dx dy := by
  unfold identCmp compareInt
  rw [hnx, hny, if_neg hne]
  simp only [bne_self_eq_false, Bool.false_eq_true, if_false, Bool.true_and,
    decide_eq_true_eq]

/-- `identCmp` decides the spec's single-identifier order on distinct
well-formed tokens. -/
theorem identCmp_lt_iff (dx dy : Str)
    (hx1 : dx ≠ []) (hx2 : isBadNum dx = false)
    (hy1 : dy ≠ []) (hy2 : isBadNum dy = false)
    (hne : dx ≠ dy) :
    (identCmp dx dy = -1 ↔ identLtSpec (interpIdent dx) (interpIdent dy)) := by
  by_cases hnx : isNum dx = true
  · by_cases hny : isNum dy = true
    · rw [identCmp_eq_compareInt dx dy hnx hny hne]
      rw [show interpIdent dx = .num (numVal dx) from by
        unfold interpIdent; rw [if_pos hnx]]
      rw [show interpIdent dy = .num (numVal dy) from by
        unfold interpIdent; rw [if_pos hny]]
      show compareInt dx dy = -1 ↔ numVal dx < numVal dy
      exact compareInt_lt_iff dx dy (tokenCanonical dx hx1 hx2 hnx)
        (tokenCanonical dy hy1 hy2 hny)
    · have hnyF : isNum dy = false := by revert hny; cases isNum dy <;> simp
      unfold identCmp interpIdent
      rw [hnx, hnyF]
      exact ⟨fun _ => True.intro, fun _ => rfl⟩
  · have hnxF : isNum dx = false := by revert hnx; cases isNum dx <;> simp
    by_cases hny : isNum dy = true
    · unfold identCmp interpIdent
      rw [hnxF, hny]
      constructor
      · intro h
        have h2 : (1 : Int) = -1 := h
        exact absurd h2 (by decide)
      · intro h; exact h.elim
    · have hnyF : isNum dy = false := by revert hny; cases isNum dy <;> simp
      unfold identCmp interpIdent
      rw [hnxF, hnyF]
      show (if lexLt dx dy = true then (-1 : Int) else 1) = -1 ↔
        List.Lex (fun a b : Char => a < b) dx dy
      by_cases hlex : lexLt dx dy = true
      · rw [if_pos hlex]
        exact ⟨fun _ => (lexLt_iff_lex dx dy).mp hlex, fun _ => rfl⟩
      · rw [if_neg hlex]
        constructor
        · intro h; exact absurd h (by decide)
        · intro h; exact absurd ((lexLt_iff_lex dx dy).mpr h) hlex

/-- One-step unfolding of the `comparePrerelease` loop. -/
theorem preLoopFuel_succ (fuel : Nat) (a : Char) (xs : Str) (b : Char) (ys : Str) :
    preLoopFuel (fuel + 1) (a :: xs) (b :: ys) =
      if xs.takeWhile (fun c => c ≠ '.') = ys.takeWhile (fun c => c ≠ '.') then
        preLoopFuel fuel (xs.dropWhile (fun c => c ≠ '.'))
          (ys.dropWhile (fun c => c ≠ '.'))
      else identCmp (xs.takeWhile (fun c => c ≠ '.'))
        (ys.takeWhile (fun c => c ≠ '.')) := rfl

/-- The leading token is a segment. -/
theorem takeWhile_mem_segs (xs : Str) :
    xs.takeWhile (fun c => c ≠ '.') ∈ segs xs := by
  rw [segs_eq xs]
  cases xs.dropWhile (fun c => c ≠ '.') with
  | nil => exact List.mem_singleton.mpr rfl
  | cons d r => exact List.mem_cons_self _ _

/-- Segments of the remainder after the first dot are segments. -/
theorem segs_tail_subset (xs r2 : Str) (d : Char)
    (h : xs.dropWhile (fun c => c ≠ '.') = d :: r2) :
    ∀ t ∈ segs r2, t ∈ segs xs := by
  intro t ht
  rw [segs_eq xs, h]
  exact List.mem_cons_of_mem _ ht

/-- `segs` starts with the leading token. -/
theorem segs_head_shape (xs : Str) :
    ∃ tl, segs xs = xs.takeWhile (fun c => c ≠ '.') :: tl := by
  rw [segs_eq xs]
  cases xs.dropWhile (fun c => c ≠ '.') with
  | nil => exact ⟨[], rfl⟩
  | cons d r => exact ⟨segs r, rfl⟩

/-- The `comparePrerelease` loop decides the structural identifier-list
order: given enough fuel, well-formed tokens on both sides and distinct
token lists, it answers `-1` exactly when the spec orders the left list
strictly below the right one. -/
theorem preLoopFuel_lt_iff : ∀ (fuel : Nat) (a : Char) (xs : Str) (b : Char) (ys : Str),
    xs.length ≤ fuel →
    TokensWF xs → TokensWF ys →
    segs xs ≠ segs ys →
    (preLoopFuel (fuel + 1) (a :: xs) (b :: ys) = -1 ↔
      identsLtSpec ((segs xs).map interpIdent) ((segs ys).map interpIdent)) := by
  intro fuel
  induction fuel using Nat.strong_induction_on with
  | _ fuel ih =>
    intro a xs b ys hlen hwx hwy hne
    rw [preLoopFuel_succ]
    obtain ⟨hdx_ne, hdx_bad⟩ := hwx _ (takeWhile_mem_segs xs)
    obtain ⟨hdy_ne, hdy_bad⟩ := hwy _ (takeWhile_mem_segs ys)
    by_cases hdd : xs.takeWhile (fun c => c ≠ '.') = ys.takeWhile (fun c => c ≠ '.')
    · rw [if_pos hdd]
      cases hdwx : xs.dropWhile (fun c => c ≠ '.') with
      | nil =>
        have hsx : segs xs = [xs.takeWhile (fun c => c ≠ '.')] := by
          rw [segs_eq xs, hdwx]
        cases hdwy : ys.dropWhile (fun c => c ≠ '.') with
        | nil =>
          have hsy : segs ys = [ys.takeWhile (fun c => c ≠ '.')] := by
            rw [segs_eq ys, hdwy]
          exact absurd (hsx.trans (by rw [hdd, ← hsy])) hne
        | cons d2 r2 =>
          have hsy : segs ys = ys.takeWhile (fun c => c ≠ '.') :: segs r2 := by
            rw [segs_eq ys, hdwy]
          have hLHS : preLoopFuel fuel [] (d2 :: r2) = -1 := by
            cases fuel <;> rfl
          rw [hLHS, hsx, hsy, List.map_cons, List.map_cons, List.map_nil]
          constructor
          · intro _
            obtain ⟨a2, as2, h2⟩ := List.exists_cons_of_ne_nil (segs_ne_nil r2)
            rw [h2, List.map_cons]
            exact Or.inr ⟨congrArg interpIdent hdd, True.intro⟩
          · intro _
            rfl
      | cons d1 r1 =>
        have hsx : segs xs = xs.takeWhile (fun c => c ≠ '.') :: segs r1 := by
          rw [segs_eq xs, hdwx]
        cases hdwy : ys.dropWhile (fun c => c ≠ '.') with
        | nil =>
          have hsy : segs ys = [ys.takeWhile (fun c => c ≠ '.')] := by
            rw [segs_eq ys, hdwy]
          have hLHS : preLoopFuel fuel (d1 :: r1) [] = 1 := by
            cases fuel <;> rfl
          rw [hLHS, hsx, hsy, List.map_cons, List.map_cons, List.map_nil]
          constructor
          · intro h
            exact absurd h (by decide)
          · intro h
            exfalso
            have h2 : identLtSpec (interpIdent (xs.takeWhile (fun c => c ≠ '.')))
                (interpIdent (ys.takeWhile (fun c => c ≠ '.')))
              ∨ (interpIdent (xs.takeWhile (fun c => c ≠ '.')) =
                  interpIdent (ys.takeWhile (fun c => c ≠ '.'))
                ∧ identsLtSpec ((segs r1).map interpIdent) []) := h
            cases h2 with
            | inl h3 =>
              rw [hdd] at h3
              exact identLtSpec_irrefl _ h3
            | inr h3 =>
              obtain ⟨a1, as1, h4⟩ := List.exists_cons_of_ne_nil (segs_ne_nil r1)
              have h5 := h3.2
              rw [h4, List.map_cons] at h5
              exact h5
        | cons d2 r2 =>
          have hsy : segs ys = ys.takeWhile (fun c => c ≠ '.') :: segs r2 := by
            rw [segs_eq ys, hdwy]
          have hr1len : r1.length + 1 ≤ xs.length := by
            have h1 := dropWhile_length_le (fun c => decide (c ≠ '.')) xs
            rw [hdwx] at h1
            simp only [List.length_cons] at h1
            omega
          cases fuel with
          | zero => omega
          | succ g =>
            have hwr1 : TokensWF r1 :=
              fun t ht => hwx t (segs_tail_subset xs r1 d1 hdwx t ht)
            have hwr2 : TokensWF r2 :=
              fun t ht => hwy t (segs_tail_subset ys r2 d2 hdwy t ht)
            have hne2 : segs r1 ≠ segs r2 := by
              intro h
              apply hne
              rw [hsx, hsy, hdd, h]
            rw [ih g (Nat.lt_succ_self g) d1 r1 d2 r2 (by omega) hwr1 hwr2 hne2]
            rw [hsx, hsy, List.map_cons, List.map_cons]
            constructor
            · intro h
              exact Or.inr ⟨congrArg interpIdent hdd, h⟩
            · intro h
              have h2 : identLtSpec (interpIdent (xs.takeWhile (fun c => c ≠ '.')))
                  (interpIdent (ys.takeWhile (fun c => c ≠ '.')))
                ∨ (interpIdent (xs.takeWhile (fun c => c ≠ '.')) =
                    interpIdent (ys.takeWhile (fun c => c ≠ '.'))
                  ∧ identsLtSpec ((segs r1).map interpIdent)
                      ((segs r2).map interpIdent)) := h
              cases h2 with
              | inl h3 =>
                rw [hdd] at h3
                exact absurd h3 (identLtSpec_irrefl _)
              | inr h3 => exact h3.2
    · rw [if_neg hdd]
      rw [identCmp_lt_iff _ _ hdx_ne hdx_bad hdy_ne hdy_bad hdd]
      obtain ⟨tx, hsx⟩ := segs_head_shape xs
      obtain ⟨ty, hsy⟩ := segs_head_shape ys
      rw [hsx, hsy, List.map_cons, List.map_cons]
      constructor
      · intro h
        exact Or.inl h
      · intro h
        have h2 : identLtSpec (interpIdent (xs.takeWhile (fun c => c ≠ '.')))
            (interpIdent (ys.takeWhile (fun c => c ≠ '.')))
          ∨ (interpIdent (xs.takeWhile (fun c => c ≠ '.')) =
              interpIdent (ys.takeWhile (fun c => c ≠ '.'))
            ∧ identsLtSpec (tx.map interpIdent) (ty.map interpIdent)) := h
        cases h2 with
        | inl h3 => exact h3
        | inr h3 =>
          exact absurd (interpIdent_inj _ _ hdx_ne hdx_bad hdy_ne hdy_bad h3.1) hdd

/-- Well-formedness of a stored prerelease field, as `parse` guarantees
it: empty, or a `-` followed by a series of well-formed tokens. -/
def PreWF (pre : Str) : Prop :=
  pre = [] ∨ ∃ body, pre = '-' :: body ∧ TokensWF body

/-- `comparePrerelease` decides the spec's prerelease order on well-formed
prerelease fields. -/
theorem comparePrerelease_lt_iff (x y : Str) (hwx : PreWF x) (hwy : PreWF y) :
    (comparePrerelease x y = -1 ↔ preLtSpec x y) := by
  unfold comparePrerelease preLtSpec
  by_cases hxy : x = y
  · subst hxy
    rw [if_pos rfl]
    constructor
    · intro h; exact absurd h (by decide)
    · rintro ⟨hne, h⟩
      cases h with
      | inl h2 => exact (hne h2).elim
      | inr h2 => exact (identsLtSpec_irrefl _ h2).elim
  · rw [if_neg hxy]
    by_cases hx0 : x = []
    · subst hx0
      rw [if_pos rfl]
      constructor
      · intro h; exact absurd h (by decide)
      · rintro ⟨hne, _⟩; exact (hne rfl).elim
    · rw [if_neg hx0]
      by_cases hy0 : y = []
      · subst hy0
        rw [if_pos rfl]
        constructor
        · intro _; exact ⟨hx0, Or.inl rfl⟩
        · intro _; rfl
      · rw [if_neg hy0]
        obtain ⟨bx, hbx, hwbx⟩ := hwx.resolve_left hx0
        obtain ⟨bz, hbz, hwbz⟩ := hwy.resolve_left hy0
        subst hbx
        subst hbz
        have hne2 : segs bx ≠ segs bz := by
          intro h
          apply hxy
          have h1 := joinDots_segs bx
          rw [h, joinDots_segs bz] at h1
          rw [h1]
        unfold preLoop
        rw [show ('-' :: bx : Str).length = bx.length + 1 from rfl]
        rw [preLoopFuel_lt_iff bx.length '-' bx '-' bz (Nat.le_refl _) hwbx hwbz hne2]
        constructor
        · intro h
          exact ⟨List.cons_ne_nil _ _, Or.inr h⟩
        · rintro ⟨_, h⟩
          cases h with
          | inl h2 => exact absurd h2 (List.cons_ne_nil _ _)
          | inr h2 => exact h2

/-- `parseInt` only accepts canonical numerals. -/
theorem parseInt_canonical (v t rest : Str) (h : parseInt v = some (t, rest)) :
    isCanonicalNum t = true := by
  cases v with
  | nil => exact Option.noConfusion h
  | cons c cs =>
    rw [show parseInt (c :: cs) =
      (if (!isDigitCh c) = true then none
       else if (decide (c = '0')
           && decide (((c :: cs).takeWhile isDigitCh).length ≠ 1)) = true then none
         else some ((c :: cs).takeWhile isDigitCh,
           (c :: cs).dropWhile isDigitCh)) from rfl] at h
    cases hd : isDigitCh c with
    | false =>
      rw [if_pos (by simp [hd])] at h
      exact Option.noConfusion h
    | true =>
      rw [if_neg (by simp [hd])] at h
      by_cases hz : (decide (c = '0')
          && decide (((c :: cs).takeWhile isDigitCh).length ≠ 1)) = true
      · rw [if_pos hz] at h
        exact Option.noConfusion h
      · rw [if_neg hz] at h
        simp only [Option.some.injEq, Prod.mk.injEq] at h
        obtain ⟨ht, _⟩ := h
        subst ht
        have hz2 : c = '0' → ((c :: cs).takeWhile isDigitCh).length = 1 := by
          intro hc0
          by_contra hlen
          apply hz
          rw [Bool.and_eq_true]
          exact ⟨by simp [hc0], by simpa using hlen⟩
        rw [List.takeWhile_cons_of_pos hd]
        have hall : (c :: cs.takeWhile isDigitCh).all isDigitCh = true := by
          simp only [List.all_cons, hd, Bool.true_and]
          exact List.all_eq_true.mpr (fun a ha => List.mem_takeWhile_imp ha)
        have hbad : isBadNum (c :: cs.takeWhile isDigitCh) = false := by
          unfold isBadNum
          by_cases hc0 : c = '0'
          · have h1 := hz2 hc0
            rw [List.takeWhile_cons_of_pos hd] at h1
            simp only [List.length_cons] at h1
            have h2 : cs.takeWhile isDigitCh = [] := by
              cases hcc : cs.takeWhile isDigitCh with
              | nil => rfl
              | cons _ _ => rw [hcc] at h1; simp at h1
            rw [h2]
            simp
          · simp [hc0]
        unfold isCanonicalNum
        rw [hbad]
        simp [hall]

/-- `parsePrerelease` only accepts a `-` followed by well-formed tokens. -/
theorem parsePrerelease_wf (v p rest : Str)
    (h : parsePrerelease v = some (p, rest)) :
    ∃ body, p = '-' :: body ∧ TokensWF body := by
  unfold parsePrerelease at h
  split at h
  · rename_i tail
    replace h : (if ((tail.takeWhile (fun c => c ≠ '+')).all
            (fun c => isIdentChar c || c = '.')
          && (segs (tail.takeWhile (fun c => c ≠ '+'))).all
            (fun seg => !seg.isEmpty && !isBadNum seg)) = true then
        some ('-' :: tail.takeWhile (fun c => c ≠ '+'),
          tail.dropWhile (fun c => c ≠ '+'))
      else none) = some (p, rest) := h
    split at h
    · rename_i hguard
      simp only [Option.some.injEq, Prod.mk.injEq] at h
      obtain ⟨hp, _⟩ := h
      refine ⟨tail.takeWhile (fun c => c ≠ '+'), hp.symm, ?_⟩
      rw [Bool.and_eq_true] at hguard
      intro t ht
      have h2 := List.all_eq_true.mp hguard.2 t ht
      rw [Bool.and_eq_true] at h2
      constructor
      · intro hteq
        rw [hteq] at h2
        exact absurd h2.1 (by decide)
      · have h3 := h2.2
        revert h3
        cases isBadNum t <;> simp
    · exact Option.noConfusion h
  all_goals exact Option.noConfusion h

/-- The non-prerelease arm of `parseTail` leaves the prerelease empty. -/
theorem parseTail_defaultArm (w pre bld : Str)
    (h : ((some (([] : Str), w)).bind fun pr =>
        match pr.2 with
        | [] => some (pr.1, ([] : Str))
        | '+' :: _ => (parseBuild pr.2).bind fun bl =>
            if bl.2 = [] then some (pr.1, bl.1) else none
        | _ => none) = some (pre, bld)) :
    pre = [] := by
  simp only [Option.bind] at h
  split at h
  · simp only [Option.some.injEq, Prod.mk.injEq] at h
    exact h.1.symm
  · rename_i tl
    cases hpb : parseBuild ('+' :: tl) with
    | none => rw [hpb] at h; exact Option.noConfusion h
    | some bl =>
      rw [hpb] at h
      simp only [Option.bind] at h
      split at h
      · simp only [Option.some.injEq, Prod.mk.injEq] at h
        exact h.1.symm
      · exact Option.noConfusion h
  all_goals exact Option.noConfusion h

/-- The prerelease field returned by `parseTail` is well-formed. -/
theorem parseTail_wf (v pre bld : Str) (h : parseTail v = some (pre, bld)) :
    PreWF pre := by
  rw [show parseTail v =
    ((match v with
      | '-' :: _ => parsePrerelease v
      | _ => some (([] : Str), v)).bind fun pr =>
        match pr.2 with
        | [] => some (pr.1, ([] : Str))
        | '+' :: _ => (parseBuild pr.2).bind fun bl =>
            if bl.2 = [] then some (pr.1, bl.1) else none
        | _ => none) from rfl] at h
  split at h
  · rename_i tail
    cases hpp : parsePrerelease ('-' :: tail) with
    | none =>
      rw [hpp] at h
      exact Option.noConfusion h
    | some pr =>
      rw [hpp] at h
      obtain ⟨p1, v1⟩ := pr
      obtain ⟨body, hbody, hwb⟩ := parsePrerelease_wf ('-' :: tail) p1 v1 hpp
      simp only [Option.bind] at h
      split at h
      · simp only [Option.some.injEq, Prod.mk.injEq] at h
        exact Or.inr ⟨body, h.1 ▸ hbody, hwb⟩
      · rename_i tl
        cases hpb : parseBuild ('+' :: tl) with
        | none => rw [hpb] at h; exact Option.noConfusion h
        | some bl =>
          rw [hpb] at h
          simp only [Option.bind] at h
          split at h
          · simp only [Option.some.injEq, Prod.mk.injEq] at h
            exact Or.inr ⟨body, h.1 ▸ hbody, hwb⟩
          · exact Option.noConfusion h
      all_goals exact Option.noConfusion h
  all_goals exact Or.inl (parseTail_defaultArm _ _ _ h)

/-- Every field `parse` fills in is canonical/well-formed. -/
theorem parse_wf (v : Str) (p : Parsed) (h : parse v = some p) :
    isCanonicalNum p.major = true ∧ isCanonicalNum p.minor = true ∧
      isCanonicalNum p.patch = true ∧ PreWF p.prerelease := by
  unfold parse at h
  split at h
  · rename_i rest
    cases hm1 : parseInt rest with
    | none => rw [hm1] at h; exact Option.noConfusion h
    | some mr =>
      rw [hm1] at h
      obtain ⟨major, v1⟩ := mr
      have hMc := parseInt_canonical rest major v1 hm1
      simp only [Option.bind] at h
      split at h
      · simp only [Option.some.injEq] at h
        subst h
        exact ⟨hMc, (by decide : isCanonicalNum (['0'] : Str) = true),
          (by decide : isCanonicalNum (['0'] : Str) = true), Or.inl rfl⟩
      · rename_i v2
        cases hm2 : parseInt v2 with
        | none => rw [hm2] at h; exact Option.noConfusion h
        | some mn =>
          rw [hm2] at h
          obtain ⟨minor, v3⟩ := mn
          have hmc := parseInt_canonical v2 minor v3 hm2
          simp only [Option.bind] at h
          split at h
          · simp only [Option.some.injEq] at h
            subst h
            exact ⟨hMc, hmc,
              (by decide : isCanonicalNum (['0'] : Str) = true), Or.inl rfl⟩
          · rename_i v4
            cases hm3 : parseInt v4 with
            | none => rw [hm3] at h; exact Option.noConfusion h
            | some pt =>
              rw [hm3] at h
              obtain ⟨patch, v5⟩ := pt
              have hpc := parseInt_canonical v4 patch v5 hm3
              simp only [Option.bind] at h
              cases htl : parseTail v5 with
              | none => rw [htl] at h; exact Option.noConfusion h
              | some pb =>
                rw [htl] at h
                obtain ⟨pre, bld⟩ := pb
                have hpw := parseTail_wf v5 pre bld htl
                simp only [Option.bind, Option.some.injEq] at h
                subst h
                exact ⟨hMc, hmc, hpc, hpw⟩
          all_goals exact Option.noConfusion h
      all_goals exact Option.noConfusion h
  all_goals exact Option.noConfusion h

/-- On versions both sides accept, the string-walking `compare` of
`x/mod/semver` answers `-1` exactly when semver.org precedence — numeric
triple as numbers, then the structural prerelease order — puts the left
version strictly below the right one. -/
theorem compare_lt_iff_ltSpec (a b : Str) (pv pw : Parsed)
    (ha : parse a = some pv) (hb : parse b = some pw) :
    (compare a b = -1 ↔ ltSpec pv pw) := by
  obtain ⟨hM, hm, hp, hpre⟩ := parse_wf a pv ha
  obtain ⟨hM2, hm2, hp2, hpre2⟩ := parse_wf b pw hb
  rw [show compare a b =
    (match parse a, parse b with
    | none, none => 0
    | none, some _ => -1
    | some _, none => 1
    | some pv, some pw =>
      if compareInt pv.major pw.major ≠ 0 then compareInt pv.major pw.major
      else if compareInt pv.minor pw.minor ≠ 0 then compareInt pv.minor pw.minor
      else if compareInt pv.patch pw.patch ≠ 0 then compareInt pv.patch pw.patch
      else comparePrerelease pv.prerelease pw.prerelease) from rfl]
  rw [ha, hb]
  show (if compareInt pv.major pw.major ≠ 0 then compareInt pv.major pw.major
    else if compareInt pv.minor pw.minor ≠ 0 then compareInt pv.minor pw.minor
    else if compareInt pv.patch pw.patch ≠ 0 then compareInt pv.patch pw.patch
    else comparePrerelease pv.prerelease pw.prerelease) = -1 ↔ ltSpec pv pw
  by_cases hc1 : compareInt pv.major pw.major = 0
  · rw [if_neg (not_not_intro hc1)]
    have heqM : pv.major = pw.major := (compareInt_eq_zero_iff _ _).mp hc1
    have hspec1 : ltSpec pv pw ↔
        (numVal pv.minor < numVal pw.minor
          ∨ (numVal pv.minor = numVal pw.minor
            ∧ (numVal pv.patch < numVal pw.patch
              ∨ (numVal pv.patch = numVal pw.patch
                ∧ preLtSpec pv.prerelease pw.prerelease)))) := by
      unfold ltSpec
      rw [heqM]
      constructor
      · intro h
        cases h with
        | inl h2 => exact absurd h2 (lt_irrefl _)
        | inr h2 => exact h2.2
      · exact fun h => Or.inr ⟨rfl, h⟩
    rw [hspec1]
    by_cases hc2 : compareInt pv.minor pw.minor = 0
    · rw [if_neg (not_not_intro hc2)]
      have heqm : pv.minor = pw.minor := (compareInt_eq_zero_iff _ _).mp hc2
      have hspec2 : (numVal pv.minor < numVal pw.minor
          ∨ (numVal pv.minor = numVal pw.minor
            ∧ (numVal pv.patch < numVal pw.patch
              ∨ (numVal pv.patch = numVal pw.patch
                ∧ preLtSpec pv.prerelease pw.prerelease)))) ↔
          (numVal pv.patch < numVal pw.patch
            ∨ (numVal pv.patch = numVal pw.patch
              ∧ preLtSpec pv.prerelease pw.prerelease)) := by
        rw [heqm]
        constructor
        · intro h
          cases h with
          | inl h2 => exact absurd h2 (lt_irrefl _)
          | inr h2 => exact h2.2
        · exact fun h => Or.inr ⟨rfl, h⟩
      rw [hspec2]
      by_cases hc3 : compareInt pv.patch pw.patch = 0
      · rw [if_neg (not_not_intro hc3)]
        have heqp : pv.patch = pw.patch := (compareInt_eq_zero_iff _ _).mp hc3
        have hspec3 : (numVal pv.patch < numVal pw.patch
            ∨ (numVal pv.patch = numVal pw.patch
              ∧ preLtSpec pv.prerelease pw.prerelease)) ↔
            preLtSpec pv.prerelease pw.prerelease := by
          rw [heqp]
          constructor
          · intro h
            cases h with
            | inl h2 => exact absurd h2 (lt_irrefl _)
            | inr h2 => exact h2.2
          · exact fun h => Or.inr ⟨rfl, h⟩
        rw [hspec3]
        exact comparePrerelease_lt_iff _ _ hpre hpre2
      · rw [if_pos hc3]
        rw [compareInt_lt_iff _ _ hp hp2]
        constructor
        · exact fun h => Or.inl h
        · intro h
          cases h with
          | inl h2 => exact h2
          | inr h2 =>
            exact absurd ((compareInt_eq_zero_iff _ _).mpr
              (numVal_inj _ _ hp hp2 h2.1)) hc3
    · rw [if_pos hc2]
      rw [compareInt_lt_iff _ _ hm hm2]
      constructor
      · exact fun h => Or.inl h
      · intro h
        cases h with
        | inl h2 => exact h2
        | inr h2 =>
          exact absurd ((compareInt_eq_zero_iff _ _).mpr
            (numVal_inj _ _ hm hm2 h2.1)) hc2
  · rw [if_pos hc1]
    rw [compareInt_lt_iff _ _ hM hM2]
    unfold ltSpec
    constructor
    · exact fun h => Or.inl h
    · intro h
      cases h with
      | inl h2 => exact h2
      | inr h2 =>
        exact absurd ((compareInt_eq_zero_iff _ _).mpr
          (numVal_inj _ _ hM hM2 h2.1)) hc1

end semver

/-! ## C6/C7 — URL templating -/

/-- C6 counterexample: rendering the template `{{VERSION}}` with the
version value `{{OS}}` yields `.../linux` — the substituted value WAS
re-scanned and expanded by the later `{{OS}}` pass — and differs from the
result of substituting the placeholders in the opposite order, so the
result is not order-independent either. -/
theorem substitution_rescan_cex :
    generateURL "linux".toList "amd64".toList ['b'] phVERSION phOS =
      "https://b.s3.amazonaws.com/linux".toList
    ∧ generateURL "linux".toList "amd64".toList ['b'] phVERSION phOS ≠
      "https://".toList ++ ['b'] ++ ".s3.amazonaws.com/".toList ++ phOS
    ∧ generateURL "linux".toList "amd64".toList ['b'] phVERSION phOS ≠
      generateURLOrderSwapped "linux".toList "amd64".toList ['b'] phVERSION phOS := by
  refine ⟨by decide, by decide, by decide⟩

/-- C6 (amended): substitution is three sequential single passes in the
fixed order `{{VERSION}}`, `{{ARCH}}`, `{{OS}}`.  A pass never re-scans
the text it inserts (so a version value containing `{{VERSION}}` is not
re-expanded), but the two later passes do re-scan the inserted version
value — rendering the bare `{{VERSION}}` template equals applying the
`{{ARCH}}` and `{{OS}}` passes to the version value itself.  When the
string after the `{{VERSION}}` pass contains no later placeholder, the
later passes change nothing and the result is order-independent. -/
theorem substitution_sequential_passes (goos goarch bucket v t : Str) :
    (generateURL goos goarch bucket phVERSION v =
      "https://".toList ++ bucket ++ ".s3.amazonaws.com/".toList ++
        stringsReplace (stringsReplace v phARCH goarch) phOS goos)
    ∧ (hasInfix phARCH (stringsReplace t phVERSION v) = false →
       hasInfix phOS (stringsReplace t phVERSION v) = false →
       generateURL goos goarch bucket t v =
         "https://".toList ++ bucket ++ ".s3.amazonaws.com/".toList ++
           stringsReplace t phVERSION v) := by
  constructor
  · simp only [generateURL]
    rw [stringsReplace_pattern_itself phVERSION v (by decide)]
  · intro hA hO
    simp only [generateURL]
    rw [stringsReplace_no_occurrence _ _ _ hA, stringsReplace_no_occurrence _ _ _ hO]

/-- Witness for `substitution_sequential_passes` at a concrete input: the
template `k-{{VERSION}}` with version value `9`, where the intermediate
string contains neither later placeholder. -/
theorem substitution_sequential_passes_witness :
    hasInfix phARCH (stringsReplace "k-\x7b\x7bVERSION\x7d\x7d".toList phVERSION ['9']) = false
    ∧ hasInfix phOS (stringsReplace "k-\x7b\x7bVERSION\x7d\x7d".toList phVERSION ['9']) = false
    ∧ generateURL "linux".toList "amd64".toList ['b'] "k-\x7b\x7bVERSION\x7d\x7d".toList ['9'] =
        "https://".toList ++ ['b'] ++ ".s3.amazonaws.com/".toList ++
          stringsReplace "k-\x7b\x7bVERSION\x7d\x7d".toList phVERSION ['9'] := by
  refine ⟨by decide, by decide, ?_⟩
  exact (substitution_sequential_passes "linux".toList "amd64".toList ['b'] ['9']
    "k-\x7b\x7bVERSION\x7d\x7d".toList).2 (by decide) (by decide)

/-- C7 counterexample: the template `t-{{VERSION}}` contains no `{{OS}}`
placeholder, yet its rendering is affected by the OS value as soon as the
version value contains `{{OS}}` (the inserted value is re-scanned by the
later pass). -/
theorem template_value_dependence_cex :
    hasInfix phOS "t-\x7b\x7bVERSION\x7d\x7d".toList = false
    ∧ generateURL "linux".toList "amd64".toList ['b'] "t-\x7b\x7bVERSION\x7d\x7d".toList phOS ≠
      generateURL "darwin".toList "amd64".toList ['b'] "t-\x7b\x7bVERSION\x7d\x7d".toList phOS := by
  refine ⟨by decide, by decide⟩

/-- C7 (amended): rendering `tool-{{OS}}-{{ARCH}}-{{VERSION}}` with
OS=`linux`, ARCH=`amd64`, VERSION=`v1.2.3` yields exactly the key
`tool-linux-amd64-v1.2.3` inside a URL of the form
`https://<bucket>.s3.amazonaws.com/<key>`.  A template without
`{{VERSION}}` is unaffected by the version value; a template is unaffected
by the ARCH (resp. OS) value provided the string reaching that pass
contains no `{{ARCH}}` (resp. `{{OS}}`) occurrence — for a template
without the placeholder this in particular holds whenever the earlier
substitutions introduce none. -/
theorem render_round_trip_and_absent_placeholders
    (bucket t v w goos goarch goosAlt goarchAlt : Str) :
    (generateURL "linux".toList "amd64".toList bucket
        "tool-\x7b\x7bOS\x7d\x7d-\x7b\x7bARCH\x7d\x7d-\x7b\x7bVERSION\x7d\x7d".toList
        "v1.2.3".toList =
      "https://".toList ++ bucket ++ ".s3.amazonaws.com/".toList ++
        "tool-linux-amd64-v1.2.3".toList)
    ∧ (hasInfix phVERSION t = false →
        generateURL goos goarch bucket t v = generateURL goos goarch bucket t w)
    ∧ (hasInfix phARCH (stringsReplace t phVERSION v) = false →
        generateURL goos goarch bucket t v = generateURL goos goarchAlt bucket t v)
    ∧ (hasInfix phOS (stringsReplace (stringsReplace t phVERSION v) phARCH goarch) = false →
        generateURL goos goarch bucket t v = generateURL goosAlt goarch bucket t v) := by
  refine ⟨?_, ?_, ?_, ?_⟩
  · simp only [generateURL]
    rw [show stringsReplace (stringsReplace (stringsReplace
        "tool-\x7b\x7bOS\x7d\x7d-\x7b\x7bARCH\x7d\x7d-\x7b\x7bVERSION\x7d\x7d".toList
        phVERSION "v1.2.3".toList) phARCH "amd64".toList) phOS "linux".toList =
      "tool-linux-amd64-v1.2.3".toList from by decide]
  · intro h
    simp only [generateURL]
    rw [stringsReplace_no_occurrence _ _ v h, stringsReplace_no_occurrence _ _ w h]
  · intro h
    simp only [generateURL]
    rw [stringsReplace_no_occurrence _ _ goarch h, stringsReplace_no_occurrence _ _ goarchAlt h]
  · intro h
    simp only [generateURL]
    rw [stringsReplace_no_occurrence _ _ goos h, stringsReplace_no_occurrence _ _ goosAlt h]

/-- Witness for `render_round_trip_and_absent_placeholders` at concrete
inputs: the placeholder-free template `k`. -/
theorem render_round_trip_witness :
    hasInfix phVERSION ['k'] = false
    ∧ hasInfix phARCH (stringsReplace ['k'] phVERSION ['9']) = false
    ∧ hasInfix phOS (stringsReplace (stringsReplace ['k'] phVERSION ['9'])
        phARCH "amd64".toList) = false
    ∧ generateURL "linux".toList "amd64".toList ['b'] ['k'] ['9'] =
        generateURL "linux".toList "amd64".toList ['b'] ['k'] ['8']
    ∧ generateURL "linux".toList "amd64".toList ['b'] ['k'] ['9'] =
        generateURL "linux".toList "arm64".toList ['b'] ['k'] ['9']
    ∧ generateURL "linux".toList "amd64".toList ['b'] ['k'] ['9'] =
        generateURL "darwin".toList "amd64".toList ['b'] ['k'] ['9'] := by
  refine ⟨by decide, by decide, by decide, ?_, ?_, ?_⟩
  · exact (render_round_trip_and_absent_placeholders ['b'] ['k'] ['9'] ['8']
      "linux".toList "amd64".toList "darwin".toList "arm64".toList).2.1 (by decide)
  · exact (render_round_trip_and_absent_placeholders ['b'] ['k'] ['9'] ['8']
      "linux".toList "amd64".toList "darwin".toList "arm64".toList).2.2.1 (by decide)
  · exact (render_round_trip_and_absent_placeholders ['b'] ['k'] ['9'] ['8']
      "linux".toList "amd64".toList "darwin".toList "arm64".toList).2.2.2 (by decide)

/-! ## C9 — the opt-out toggle -/

/-- C9: when `S3UPDATE_DISABLED` is set to any non-empty value the entire
cycle is disabled unconditionally: the call returns a nil error, issues no
network request, records no filesystem step and leaves the filesystem
untouched. -/
theorem optout_disables_cycle (o : Oracle) (u : Updater) (fs0 : FS)
    (h : o.envDisabled ≠ []) :
    AutoUpdate o u fs0 = ⟨.ret none, fs0, [], []⟩ := by
  have hb : (o.envDisabled != []) = true := bne_iff_ne.mpr h
  simp [AutoUpdate, hb]

/-- Witness for `optout_disables_cycle` with the toggle set to `"x"`. -/
theorem optout_disables_cycle_witness :
    ({ oracleAllOk with envDisabled := ['x'] } : Oracle).envDisabled ≠ []
    ∧ AutoUpdate { oracleAllOk with envDisabled := ['x'] } updaterDemo fsDemo =
        ⟨.ret none, fsDemo, [], []⟩ :=
  ⟨by decide, optout_disables_cycle _ updaterDemo fsDemo (by decide)⟩

/-! ## C10 — the unused `S3VersionKey` and the fixed version URL -/

/-- `runAutoUpdate` never reads the `s3VersionKey` field. -/
theorem runAutoUpdate_ignores_version_key
    (o : Oracle) (cv vk vk1 ck b rk : Str) (vb : Bool) (fs0 : FS) :
    runAutoUpdate o ⟨cv, vk, ck, b, rk, vb⟩ fs0 =
      runAutoUpdate o ⟨cv, vk1, ck, b, rk, vb⟩ fs0 := rfl

/-- Every network request list of a run is empty or starts with the fixed
version URL. -/
theorem runAutoUpdate_net_head (o : Oracle) (u : Updater) (fs0 : FS) :
    (runAutoUpdate o u fs0).net = [] ∨
      (runAutoUpdate o u fs0).net.head? = some (versionURL u.s3Bucket) := by
  simp only [runAutoUpdate]
  cases semver.isValid u.currentVersion with
  | false => left; rfl
  | true =>
    cases hf : fetchRemoteVersion o u.s3Bucket with
    | error e => right; rfl
    | ok remote =>
      dsimp only
      cases semver.compare u.currentVersion remote == -1 with
      | false => right; rfl
      | true =>
        cases (downloadUpdate o
            (generateURL o.goos o.goarch u.s3Bucket u.s3ReleaseKey remote)
            (generateURL o.goos o.goarch u.s3Bucket u.checksumKey remote)
            remote fs0).out with
        | ret e => cases e <;> (right; rfl)
        | execed => right; rfl

/-- C10: `validate` requires `S3VersionKey` to be non-empty, yet its value
never influences the run: two configurations differing only in a non-empty
`S3VersionKey` behave identically, and every network request list begins
with the fixed `https://<bucket>.s3.amazonaws.com/VERSION` URL (or is
empty when no fetch happens). -/
theorem version_key_never_used (o : Oracle) (u : Updater) (fs0 : FS) (k k1 : Str)
    (hk : k ≠ []) (hk1 : k1 ≠ []) :
    AutoUpdate o { u with s3VersionKey := k } fs0 =
      AutoUpdate o { u with s3VersionKey := k1 } fs0
    ∧ ((AutoUpdate o u fs0).net = [] ∨
        (AutoUpdate o u fs0).net.head? = some (versionURL u.s3Bucket))
    ∧ (o.envDisabled = [] → u.currentVersion ≠ [] → u.s3Bucket ≠ [] →
        u.s3ReleaseKey ≠ [] → u.s3VersionKey = [] →
        (AutoUpdate o u fs0).out = .ret (some .noVersionKeySet)) := by
  obtain ⟨cv, vk, ck, b, rk, vb⟩ := u
  refine ⟨?_, ?_, ?_⟩
  · show AutoUpdate o ⟨cv, k, ck, b, rk, vb⟩ fs0 = AutoUpdate o ⟨cv, k1, ck, b, rk, vb⟩ fs0
    have hkB : (k == ([] : Str)) = false := beq_eq_false_iff_ne.mpr hk
    have hk1B : (k1 == ([] : Str)) = false := beq_eq_false_iff_ne.mpr hk1
    unfold AutoUpdate Updater.validate
    cases o.envDisabled != [] with
    | true => rfl
    | false =>
      cases cv == ([] : Str) with
      | true => rfl
      | false =>
        cases b == ([] : Str) with
        | true => rfl
        | false =>
          cases rk == ([] : Str) with
          | true => rfl
          | false =>
            simp only [hkB, hk1B, Bool.cond_false]
            exact runAutoUpdate_ignores_version_key o cv k k1 ck b rk vb fs0
  · unfold AutoUpdate
    cases o.envDisabled != [] with
    | true => left; rfl
    | false =>
      cases Updater.validate ⟨cv, vk, ck, b, rk, vb⟩ with
      | some e => left; rfl
      | none => exact runAutoUpdate_net_head o ⟨cv, vk, ck, b, rk, vb⟩ fs0
  · intro he hcv hb hrk hvk
    replace he : o.envDisabled = [] := he
    replace hcv : cv ≠ [] := hcv
    replace hb : b ≠ [] := hb
    replace hrk : rk ≠ [] := hrk
    replace hvk : vk = [] := hvk
    have heB : (o.envDisabled != []) = false := by simp [he]
    simp [AutoUpdate, Updater.validate, heB, beq_eq_false_iff_ne.mpr hcv,
      beq_eq_false_iff_ne.mpr hb, beq_eq_false_iff_ne.mpr hrk, hvk]

/-- Witness for `version_key_never_used` with keys `"a"` and `"c"`. -/
theorem version_key_never_used_witness :
    (['a'] : Str) ≠ [] ∧ (['c'] : Str) ≠ []
    ∧ AutoUpdate oracleAllOk { updaterDemo with s3VersionKey := ['a'] } fsDemo =
        AutoUpdate oracleAllOk { updaterDemo with s3VersionKey := ['c'] } fsDemo
    ∧ ((AutoUpdate oracleAllOk updaterDemo fsDemo).net = [] ∨
        (AutoUpdate oracleAllOk updaterDemo fsDemo).net.head? =
          some (versionURL updaterDemo.s3Bucket)) := by
  refine ⟨by decide, by decide, ?_, ?_⟩
  · exact (version_key_never_used oracleAllOk updaterDemo fsDemo ['a'] ['c']
      (by decide) (by decide)).1
  · exact (version_key_never_used oracleAllOk updaterDemo fsDemo ['a'] ['c']
      (by decide) (by decide)).2.1

/-! ## C3 — update triggered iff local < remote -/

/-- The tail stage always reports both completed GETs. -/
theorem downloadUpdateFinish_net (o : Oracle) (d c : Str) (f : FS) (p : List FS) :
    (downloadUpdateFinish o d c f p).net = [d, c] := by
  unfold downloadUpdateFinish
  cases o.chmodOk with
  | false => rfl
  | true => cases o.execOk with | false => rfl | true => rfl

/-- Every `downloadUpdate` attempt requests the artifact URL (and the
checksum URL as soon as the artifact GET succeeded). -/
theorem downloadUpdate_net_eq (o : Oracle) (d c v : Str) (fs0 : FS) :
    (downloadUpdate o d c v fs0).net = [d] ∨
      (downloadUpdate o d c v fs0).net = [d, c] := by
  unfold downloadUpdate
  cases o.downloadGetOk with
  | false => left; rfl
  | true =>
  cases o.checksumGetOk with
  | false => right; rfl
  | true =>
  cases o.checksumReadOk with
  | false => right; rfl
  | true =>
  cases o.execPathOk with
  | false => right; rfl
  | true =>
  cases o.evalSymlinksOk with
  | false => right; rfl
  | true =>
  cases o.statOk with
  | false => right; rfl
  | true =>
  cases fs0.target with
  | none => right; rfl
  | some orig =>
  cases o.openWriteOk with
  | false => right; rfl
  | true =>
  cases o.copyOk with
  | false => right; rfl
  | true =>
  cases o.openReadOk with
  | false => right; rfl
  | true =>
  cases o.hashCopyOk with
  | false => right; rfl
  | true =>
  cases o.checksumBody != hexEncode (o.md5 o.artifact) with
  | true => right; rfl
  | false =>
  cases hasSuffix d ".tgz".toList with
  | false => right; exact downloadUpdateFinish_net o d c _ _
  | true =>
  cases (untgzFile o (written o fs0)).err with
  | some e => right; rfl
  | none => right; exact downloadUpdateFinish_net o d c _ _

/-- C3: for valid local and remote versions, the update pipeline (the
download and everything after it) runs iff `semver.Compare` orders the
local version strictly below the remote one; otherwise the run stops after
the single version request, writes nothing, and returns a nil error.
Moreover the code's comparison IS semantic-version precedence: on the
parses of the two versions, `semver.Compare` answers `-1` exactly when
semver.org precedence (numeric triple as numbers, then the structural
prerelease order) puts the local version strictly below the remote one. -/
theorem update_triggered_iff_semver_lt
    (o : Oracle) (u : Updater) (fs0 : FS) (raw remote : Str)
    (hloc : semver.isValid u.currentVersion = true)
    (hget : o.versionGet = some raw)
    (hread : o.versionReadOk = true)
    (htrim : trimSpace raw = remote)
    (hrem : semver.isValid remote = true) :
    (semver.compare u.currentVersion remote = -1 ↔
      1 < (runAutoUpdate o u fs0).net.length)
    ∧ (semver.compare u.currentVersion remote ≠ -1 →
        runAutoUpdate o u fs0 = ⟨.ret none, fs0, [fs0], [versionURL u.s3Bucket]⟩)
    ∧ (∀ pv pw : semver.Parsed, semver.parse u.currentVersion = some pv →
        semver.parse remote = some pw →
        (semver.compare u.currentVersion remote = -1 ↔ semver.ltSpec pv pw)) := by
  have hfetch : fetchRemoteVersion o u.s3Bucket = .ok remote := by
    simp [fetchRemoteVersion, hget, hread, htrim, hrem]
  refine ⟨?_, ?_, ?_⟩
  · constructor
    · intro hc
      have hcB : (semver.compare u.currentVersion remote == -1) = true := by
        simp [hc]
      have hnet := downloadUpdate_net_eq o
        (generateURL o.goos o.goarch u.s3Bucket u.s3ReleaseKey remote)
        (generateURL o.goos o.goarch u.s3Bucket u.checksumKey remote) remote fs0
      simp only [runAutoUpdate, hloc, Bool.not_true, Bool.cond_false, hfetch,
        hcB, Bool.cond_true]
      rcases hout : (downloadUpdate o
        (generateURL o.goos o.goarch u.s3Bucket u.s3ReleaseKey remote)
        (generateURL o.goos o.goarch u.s3Bucket u.checksumKey remote) remote fs0).out
        with e | _
      · rcases e with _ | e <;> (simp only [hout]; rcases hnet with h | h <;> simp [h])
      · simp only [hout]; rcases hnet with h | h <;> simp [h]
    · intro hlen
      by_contra hc
      have hcB : (semver.compare u.currentVersion remote == -1) = false :=
        beq_eq_false_iff_ne.mpr hc
      simp [runAutoUpdate, hloc, hfetch, hcB] at hlen
  · intro hc
    have hcB : (semver.compare u.currentVersion remote == -1) = false :=
      beq_eq_false_iff_ne.mpr hc
    simp [runAutoUpdate, hloc, hfetch, hcB]
  · intro pv pw hpv hpw
    exact semver.compare_lt_iff_ltSpec u.currentVersion remote pv pw hpv hpw

/-- Witness for `update_triggered_iff_semver_lt`: local `v1.0.0`, remote
body `"v1.1.0\n"`; the final conjunct exercises the precedence bridge,
concluding that `v1.0.0` structurally precedes `v1.1.0`. -/
theorem update_triggered_witness :
    semver.isValid updaterDemo.currentVersion = true
    ∧ oracleAllOk.versionGet = some "v1.1.0\n".toList
    ∧ oracleAllOk.versionReadOk = true
    ∧ trimSpace "v1.1.0\n".toList = "v1.1.0".toList
    ∧ semver.isValid "v1.1.0".toList = true
    ∧ (semver.compare updaterDemo.currentVersion "v1.1.0".toList = -1 ↔
        1 < (runAutoUpdate oracleAllOk updaterDemo fsDemo).net.length)
    ∧ semver.ltSpec
        ⟨"1".toList, "0".toList, "0".toList, [], []⟩
        ⟨"1".toList, "1".toList, "0".toList, [], []⟩ := by
  refine ⟨by decide, by decide, by decide, by decide, by decide, ?_, ?_⟩
  · exact (update_triggered_iff_semver_lt oracleAllOk updaterDemo fsDemo
      "v1.1.0\n".toList "v1.1.0".toList (by decide) (by decide) (by decide)
      (by decide) (by decide)).1
  · exact ((update_triggered_iff_semver_lt oracleAllOk updaterDemo fsDemo
      "v1.1.0\n".toList "v1.1.0".toList (by decide) (by decide) (by decide)
      (by decide) (by decide)).2.2
      ⟨"1".toList, "0".toList, "0".toList, [], []⟩
      ⟨"1".toList, "1".toList, "0".toList, [], []⟩
      (by decide) (by decide)).mp (by decide)

/-! ## C5 — the vanished-target quiet abort -/

/-- C5 counterexample: with the target vanished at the backup step (the
`os.Stat` call fails) and an update otherwise due, the orchestrator does
NOT return control to the caller: the nil return from `downloadUpdate`
makes `runAutoUpdate` call `os.Exit(0)`. -/
theorem vanished_target_exit0_cex :
    (runAutoUpdate oracleVanished updaterDemo fsDemo).out = ROut.exit0
    ∧ (runAutoUpdate oracleVanished updaterDemo fsDemo).out ≠ ROut.ret none := by
  refine ⟨by decide, by decide⟩

/-- C5 (amended): if the resolved target does not exist (or `os.Stat`
fails) when the backup step is reached, the attempt aborts quietly with a
nil error and no filesystem change; the orchestrator then treats the nil
return as a successful update and terminates the process via `os.Exit(0)`
instead of returning control to the caller. -/
theorem vanished_target_quiet_noop
    (o : Oracle) (u : Updater) (fs0 : FS) (raw remote : Str)
    (hloc : semver.isValid u.currentVersion = true)
    (hget : o.versionGet = some raw)
    (hread : o.versionReadOk = true)
    (htrim : trimSpace raw = remote)
    (hrem : semver.isValid remote = true)
    (hc : semver.compare u.currentVersion remote = -1)
    (hdl : o.downloadGetOk = true) (hcg : o.checksumGetOk = true)
    (hcr : o.checksumReadOk = true) (hep : o.execPathOk = true)
    (hev : o.evalSymlinksOk = true)
    (hvan : (o.statOk && fs0.target.isSome) = false) :
    (downloadUpdate o (generateURL o.goos o.goarch u.s3Bucket u.s3ReleaseKey remote)
        (generateURL o.goos o.goarch u.s3Bucket u.checksumKey remote) remote fs0).out =
      .ret none
    ∧ runAutoUpdate o u fs0 = ⟨.exit0, fs0, [fs0],
        [versionURL u.s3Bucket,
          generateURL o.goos o.goarch u.s3Bucket u.s3ReleaseKey remote,
          generateURL o.goos o.goarch u.s3Bucket u.checksumKey remote]⟩ := by
  have hdown : downloadUpdate o
      (generateURL o.goos o.goarch u.s3Bucket u.s3ReleaseKey remote)
      (generateURL o.goos o.goarch u.s3Bucket u.checksumKey remote) remote fs0 =
      ⟨.ret none, fs0, [fs0],
        [generateURL o.goos o.goarch u.s3Bucket u.s3ReleaseKey remote,
          generateURL o.goos o.goarch u.s3Bucket u.checksumKey remote]⟩ := by
    unfold downloadUpdate
    simp [hdl, hcg, hcr, hep, hev, hvan]
  have hfetch : fetchRemoteVersion o u.s3Bucket = .ok remote := by
    simp [fetchRemoteVersion, hget, hread, htrim, hrem]
  have hcB : (semver.compare u.currentVersion remote == -1) = true := by simp [hc]
  refine ⟨by rw [hdown], ?_⟩
  simp only [runAutoUpdate, hloc, Bool.not_true, Bool.cond_false, hfetch, hcB,
    Bool.cond_true, hdown]

/-- Witness for `vanished_target_quiet_noop`: the all-ok environment with a
failing `os.Stat`. -/
theorem vanished_target_quiet_noop_witness :
    (oracleVanished.statOk && fsDemo.target.isSome) = false
    ∧ semver.compare updaterDemo.currentVersion "v1.1.0".toList = -1
    ∧ runAutoUpdate oracleVanished updaterDemo fsDemo = ⟨.exit0, fsDemo, [fsDemo],
        [versionURL updaterDemo.s3Bucket,
          generateURL oracleVanished.goos oracleVanished.goarch updaterDemo.s3Bucket
            updaterDemo.s3ReleaseKey "v1.1.0".toList,
          generateURL oracleVanished.goos oracleVanished.goarch updaterDemo.s3Bucket
            updaterDemo.checksumKey "v1.1.0".toList]⟩ := by
  refine ⟨by decide, by decide, ?_⟩
  exact (vanished_target_quiet_noop oracleVanished updaterDemo fsDemo
    "v1.1.0\n".toList "v1.1.0".toList (by decide) (by decide) (by decide)
    (by decide) (by decide) (by decide) (by decide) (by decide) (by decide)
    (by decide) (by decide) (by decide)).2

/-! ## C1/C8 — the checksum comparison and its rollback -/

/-- Shared helper: the full result of an attempt that reaches the digest
comparison and mismatches. -/
theorem mismatch_run
    (o : Oracle) (d c v : Str) (fs0 : FS)
    (hdl : o.downloadGetOk = true) (hcg : o.checksumGetOk = true)
    (hcr : o.checksumReadOk = true) (hep : o.execPathOk = true)
    (hev : o.evalSymlinksOk = true) (hst : (o.statOk && fs0.target.isSome) = true)
    (how : o.openWriteOk = true) (hcp : o.copyOk = true)
    (hor : o.openReadOk = true) (hhc : o.hashCopyOk = true)
    (hmis : o.checksumBody ≠ hexEncode (o.md5 o.artifact)) :
    downloadUpdate o d c v fs0 =
      ⟨.ret (some (.checksumMismatch v)), restore o.restoreOk (written o fs0),
        [fs0, bak o fs0, truncated o fs0, written o fs0,
          restore o.restoreOk (written o fs0)], [d, c]⟩ := by
  have hmisB : (o.checksumBody != hexEncode (o.md5 o.artifact)) = true :=
    bne_iff_ne.mpr hmis
  unfold downloadUpdate
  simp [hdl, hcg, hcr, hep, hev, hst, how, hcp, hor, hhc, hmisB]

/-- C1 counterexample: when the initial (unchecked) backup rename fails,
a checksum-mismatching attempt still returns the mismatch error but leaves
the target holding the rejected artifact bytes `[2]` instead of the
pre-attempt content `[1]` — the target is NOT byte-identical to its
pre-attempt content. -/
theorem checksum_mismatch_unchecked_rename_cex :
    (downloadUpdate oracleNoRenameMismatch ['d'] ['c'] ['v'] fsDemo).out =
      .ret (some (.checksumMismatch ['v']))
    ∧ fsDemo.target = some [1]
    ∧ (downloadUpdate oracleNoRenameMismatch ['d'] ['c'] ['v'] fsDemo).fs.target = some [2]
    ∧ (some [2] : Option Bytes) ≠ some [1] := by
  refine ⟨by decide, by decide, by decide, by decide⟩

/-- C1 (amended): every attempt that reaches the digest comparison with a
digest differing from the fetched checksum payload returns the
checksum-mismatch error carrying the version; and provided the initial
backup rename succeeded (the source ignores its result) and the restore
rename succeeds, the backup is renamed back so the target again holds
exactly its pre-attempt content. -/
theorem checksum_mismatch_error_and_restore
    (o : Oracle) (d c v : Str) (fs0 : FS) (orig : Bytes)
    (hdl : o.downloadGetOk = true) (hcg : o.checksumGetOk = true)
    (hcr : o.checksumReadOk = true) (hep : o.execPathOk = true)
    (hev : o.evalSymlinksOk = true) (hstat : o.statOk = true)
    (htgt : fs0.target = some orig)
    (how : o.openWriteOk = true) (hcp : o.copyOk = true)
    (hor : o.openReadOk = true) (hhc : o.hashCopyOk = true)
    (hmis : o.checksumBody ≠ hexEncode (o.md5 o.artifact)) :
    (downloadUpdate o d c v fs0).out = .ret (some (.checksumMismatch v))
    ∧ (o.renameBackupOk = true → o.restoreOk = true →
        (downloadUpdate o d c v fs0).fs = ⟨some orig, none⟩) := by
  have hst : (o.statOk && fs0.target.isSome) = true := by simp [hstat, htgt]
  have hrun := mismatch_run o d c v fs0 hdl hcg hcr hep hev hst how hcp hor hhc hmis
  refine ⟨by rw [hrun], ?_⟩
  intro hrb hro
  rw [hrun]
  show restore o.restoreOk (written o fs0) = ⟨some orig, none⟩
  simp [restore, written, bak, renameToBackup, hrb, hro, htgt]

/-- Witness for `checksum_mismatch_error_and_restore`: checksum object
`"zz"` against digest `"ab"`; the original `[1]` is back at the target. -/
theorem checksum_mismatch_error_and_restore_witness :
    oracleMismatch.checksumBody ≠
      hexEncode (oracleMismatch.md5 oracleMismatch.artifact)
    ∧ (downloadUpdate oracleMismatch ['d'] ['c'] ['v'] fsDemo).out =
        .ret (some (.checksumMismatch ['v']))
    ∧ (downloadUpdate oracleMismatch ['d'] ['c'] ['v'] fsDemo).fs =
        ⟨some [1], none⟩ := by
  refine ⟨by decide, ?_, ?_⟩
  · exact (checksum_mismatch_error_and_restore oracleMismatch ['d'] ['c'] ['v']
      fsDemo [1] (by decide) (by decide) (by decide) (by decide) (by decide)
      (by decide) (by decide) (by decide) (by decide) (by decide) (by decide)
      (by decide)).1
  · exact (checksum_mismatch_error_and_restore oracleMismatch ['d'] ['c'] ['v']
      fsDemo [1] (by decide) (by decide) (by decide) (by decide) (by decide)
      (by decide) (by decide) (by decide) (by decide) (by decide) (by decide)
      (by decide)).2 (by decide) (by decide)

/-- `untgzFile` never reports a checksum-mismatch error. -/
theorem untgz_err_not_mismatch (o : Oracle) (fs : FS) (v : Str) :
    (untgzFile o fs).err ≠ some (Err.checksumMismatch v) := by
  unfold untgzFile
  cases o.untgzOpenOk with
  | false => simp
  | true =>
  cases o.gzipOk with
  | false => simp
  | true =>
  cases o.tarNextOk with
  | false => simp
  | true =>
  cases o.tarIsReg with
  | false => simp
  | true =>
  cases o.tarReadOk with
  | false => simp
  | true =>
  cases o.createOk with
  | false => simp
  | true =>
  cases o.writeEntryOk with
  | false => simp
  | true => simp

/-- The tail stage never reports a checksum-mismatch error. -/
theorem finish_out_not_mismatch (o : Oracle) (d c : Str) (f : FS) (p : List FS)
    (v : Str) :
    (downloadUpdateFinish o d c f p).out ≠ .ret (some (.checksumMismatch v)) := by
  unfold downloadUpdateFinish
  cases o.chmodOk with
  | false => simp
  | true => cases o.execOk with | false => simp | true => simp

/-- C8 (amended): for every attempt that reaches the verification step, the
outcome is the checksum-mismatch error precisely when the RAW checksum
response body differs, as a string, from the locally computed lowercase-hex
digest: no whitespace is stripped from the body before the comparison. -/
theorem checksum_exact_raw_match
    (o : Oracle) (d c v : Str) (fs0 : FS)
    (hdl : o.downloadGetOk = true) (hcg : o.checksumGetOk = true)
    (hcr : o.checksumReadOk = true) (hep : o.execPathOk = true)
    (hev : o.evalSymlinksOk = true) (hst : (o.statOk && fs0.target.isSome) = true)
    (how : o.openWriteOk = true) (hcp : o.copyOk = true)
    (hor : o.openReadOk = true) (hhc : o.hashCopyOk = true) :
    (downloadUpdate o d c v fs0).out = .ret (some (.checksumMismatch v)) ↔
      o.checksumBody ≠ hexEncode (o.md5 o.artifact) := by
  constructor
  · intro hout
    by_contra hne
    have hmisB : (o.checksumBody != hexEncode (o.md5 o.artifact)) = false := by
      simp [hne]
    unfold downloadUpdate at hout
    simp only [hdl, hcg, hcr, hep, hev, hst, how, hcp, hor, hhc, hmisB,
      Bool.not_true, Bool.cond_false, Bool.cond_true] at hout
    cases hsuf : hasSuffix d ".tgz".toList
    · rw [hsuf] at hout
      simp only [Bool.cond_false] at hout
      exact finish_out_not_mismatch o d c _ _ v hout
    · rw [hsuf] at hout
      simp only [Bool.cond_true] at hout
      cases hu : (untgzFile o (written o fs0)).err with
      | some e =>
        rw [hu] at hout
        simp only [DOut.ret.injEq, Option.some.injEq] at hout
        exact untgz_err_not_mismatch o (written o fs0) v (hout ▸ hu)
      | none =>
        rw [hu] at hout
        exact finish_out_not_mismatch o d c _ _ v hout
  · intro hmis
    rw [mismatch_run o d c v fs0 hdl hcg hcr hep hev hst how hcp hor hhc hmis]

/-- Witness for `checksum_exact_raw_match` at the `"zz"`-vs-`"ab"`
mismatch instance. -/
theorem checksum_exact_raw_match_witness :
    (oracleMismatch.statOk && fsDemo.target.isSome) = true
    ∧ ((downloadUpdate oracleMismatch ['d'] ['c'] ['v'] fsDemo).out =
        .ret (some (.checksumMismatch ['v'])) ↔
        oracleMismatch.checksumBody ≠
          hexEncode (oracleMismatch.md5 oracleMismatch.artifact)) := by
  refine ⟨by decide, ?_⟩
  exact checksum_exact_raw_match oracleMismatch ['d'] ['c'] ['v'] fsDemo
    (by decide) (by decide) (by decide) (by decide) (by decide) (by decide)
    (by decide) (by decide) (by decide) (by decide)

/-- C8 counterexample: a checksum object holding the correct digest plus a
trailing newline fails verification — the trimmed body equals the digest,
yet the attempt ends in a checksum mismatch, so no whitespace is stripped
before the comparison. -/
theorem checksum_not_trimmed_cex :
    trimSpace oracleTrailingNewline.checksumBody =
      hexEncode (oracleTrailingNewline.md5 oracleTrailingNewline.artifact)
    ∧ (downloadUpdate oracleTrailingNewline ['d'] ['c'] ['v'] fsDemo).out =
        .ret (some (.checksumMismatch ['v'])) := by
  refine ⟨by decide, by decide⟩

/-! ## C4 — the missing restore on the verification re-open -/

/-- C4: evaluating the attempt at the failing input.  When the re-open of
the just-written target for digest verification fails, the source returns
the error WITHOUT restoring the backup (s3update.go lines 183-186): the
target keeps the freshly written artifact `[2]` and the original `[1]`
stays parked at `<target>.bak`, contradicting the documented
restore-on-any-failure policy. -/
theorem verify_reopen_failure_no_restore :
    fsDemo = ⟨some [1], none⟩
    ∧ (downloadUpdate oracleNoReopen ['d'] ['c'] ['v'] fsDemo).out =
        .ret (some .openReadErr)
    ∧ (downloadUpdate oracleNoReopen ['d'] ['c'] ['v'] fsDemo).fs =
        ⟨some [2], some [1]⟩ := by
  refine ⟨by decide, by decide, by decide⟩

/-! ## C2 — the backup invariant before the commit point -/

/-- A best-effort restore from a backup that holds the original keeps the
original available: restored to the target on success, still parked at the
backup otherwise. -/
theorem restore_keeps (orig : Bytes) (ok : Bool) (fs : FS)
    (h : fs.backup = some orig) : KeepsOriginal orig (restore ok fs) := by
  unfold restore
  rw [h]
  cases ok with
  | false => exact Or.inr h
  | true => exact Or.inl rfl

/-- The `os.Remove` inside `untgzFile` never touches the backup path. -/
theorem untgzRemoved_backup (o : Oracle) (fs : FS) :
    (untgzRemoved o fs).backup = fs.backup := by
  unfold untgzRemoved
  cases o.removeOldOk with
  | false => rfl
  | true => rfl

/-- `untgzFile` never touches the backup path. -/
theorem untgz_fs_backup (o : Oracle) (fs : FS) :
    (untgzFile o fs).fs.backup = fs.backup := by
  unfold untgzFile
  cases o.untgzOpenOk with
  | false => rfl
  | true =>
  cases o.gzipOk with
  | false => rfl
  | true =>
  cases o.tarNextOk with
  | false => rfl
  | true =>
  cases o.tarIsReg with
  | false => rfl
  | true =>
  cases o.tarReadOk with
  | false => rfl
  | true =>
  cases o.createOk with
  | false => exact untgzRemoved_backup o fs
  | true =>
  cases o.writeEntryOk with
  | false => exact untgzRemoved_backup o fs
  | true => exact untgzRemoved_backup o fs

/-- No state visited inside `untgzFile` touches the backup path. -/
theorem untgz_pre_backup (o : Oracle) (fs : FS) :
    ∀ s ∈ (untgzFile o fs).pre, s.backup = fs.backup := by
  unfold untgzFile
  cases o.untgzOpenOk with
  | false => intro s hs; rw [List.mem_singleton.mp hs]
  | true =>
  cases o.gzipOk with
  | false => intro s hs; rw [List.mem_singleton.mp hs]
  | true =>
  cases o.tarNextOk with
  | false => intro s hs; rw [List.mem_singleton.mp hs]
  | true =>
  cases o.tarIsReg with
  | false => intro s hs; rw [List.mem_singleton.mp hs]
  | true =>
  cases o.tarReadOk with
  | false => intro s hs; rw [List.mem_singleton.mp hs]
  | true =>
  cases o.createOk with
  | false =>
    intro s hs
    simp only [Bool.not_false, Bool.not_true, Bool.cond_true, Bool.cond_false,
      List.mem_cons, List.mem_singleton, List.not_mem_nil, or_false] at hs
    rcases hs with rfl | rfl
    · rfl
    · exact untgzRemoved_backup o fs
  | true =>
  cases o.writeEntryOk with
  | false =>
    intro s hs
    simp only [Bool.not_false, Bool.not_true, Bool.cond_true, Bool.cond_false,
      List.mem_cons, List.mem_singleton, List.not_mem_nil, or_false] at hs
    rcases hs with rfl | rfl | rfl | rfl
    · rfl
    · exact untgzRemoved_backup o fs
    · exact untgzRemoved_backup o fs
    · exact untgzRemoved_backup o fs
  | true =>
    intro s hs
    simp only [Bool.not_false, Bool.not_true, Bool.cond_true, Bool.cond_false,
      List.mem_cons, List.mem_singleton, List.not_mem_nil, or_false] at hs
    rcases hs with rfl | rfl | rfl | rfl
    · rfl
    · exact untgzRemoved_backup o fs
    · exact untgzRemoved_backup o fs
    · exact untgzRemoved_backup o fs

/-- Every state visited by the tail stage is an accumulated state, the
restore of the incoming state, or the incoming state itself. -/
theorem downloadUpdateFinish_pre (o : Oracle) (d c : Str) (f : FS) (p : List FS) :
    ∀ s ∈ (downloadUpdateFinish o d c f p).pre,
      s ∈ p ∨ s = restore o.restoreOk f ∨ s = f := by
  unfold downloadUpdateFinish
  cases o.chmodOk with
  | false =>
    intro s hs
    simp only [Bool.not_false, Bool.not_true, Bool.cond_true, Bool.cond_false,
      List.mem_append, List.mem_singleton] at hs
    rcases hs with h | h
    · exact Or.inl h
    · exact Or.inr (Or.inl h)
  | true =>
    cases o.execOk with
    | false =>
      intro s hs
      simp only [Bool.not_false, Bool.not_true, Bool.cond_true, Bool.cond_false,
      List.mem_append, List.mem_singleton] at hs
      rcases hs with h | h
      · exact Or.inl h
      · exact Or.inr (Or.inr h)
    | true =>
      intro s hs
      simp only [Bool.not_false, Bool.not_true, Bool.cond_true, Bool.cond_false,
      List.mem_append, List.mem_singleton] at hs
      rcases hs with h | h
      · exact Or.inl h
      · exact Or.inr (Or.inr h)

/-- C2 (amended): provided the initial rename of the target to
`<target>.bak` succeeded (the source ignores its result), every filesystem
state visited before the commit step keeps the original binary available:
intact at the target path or parked at the backup path — over every
interleaving of success and failure of the remaining operations. -/
theorem backup_invariant_before_commit
    (o : Oracle) (d c v : Str) (fs0 : FS) (orig : Bytes)
    (htgt : fs0.target = some orig) (hrb : o.renameBackupOk = true) :
    ∀ s ∈ (downloadUpdate o d c v fs0).pre, KeepsOriginal orig s := by
  have hbak : bak o fs0 = ⟨none, some orig⟩ := by
    simp [bak, renameToBackup, hrb, htgt]
  have hbakB : (bak o fs0).backup = some orig := by rw [hbak]
  have htrB : (truncated o fs0).backup = some orig := hbakB
  have hhwB : (halfWritten o fs0).backup = some orig := hbakB
  have hwrB : (written o fs0).backup = some orig := hbakB
  have huB : ((untgzFile o (written o fs0)).fs).backup = some orig :=
    (untgz_fs_backup o (written o fs0)).trans hwrB
  have hfs0 : KeepsOriginal orig fs0 := Or.inl htgt
  intro s hs
  unfold downloadUpdate at hs
  cases hdg : o.downloadGetOk with
  | false =>
    rw [hdg] at hs
    simp only [Bool.not_false, Bool.cond_true, List.mem_singleton] at hs
    exact hs ▸ hfs0
  | true =>
  rw [hdg] at hs
  simp only [Bool.not_true, Bool.cond_false] at hs
  cases hcg : o.checksumGetOk with
  | false =>
    rw [hcg] at hs
    simp only [Bool.not_false, Bool.cond_true, List.mem_singleton] at hs
    exact hs ▸ hfs0
  | true =>
  rw [hcg] at hs
  simp only [Bool.not_true, Bool.cond_false] at hs
  cases hcr : o.checksumReadOk with
  | false =>
    rw [hcr] at hs
    simp only [Bool.not_false, Bool.cond_true, List.mem_singleton] at hs
    exact hs ▸ hfs0
  | true =>
  rw [hcr] at hs
  simp only [Bool.not_true, Bool.cond_false] at hs
  cases hep : o.execPathOk with
  | false =>
    rw [hep] at hs
    simp only [Bool.not_false, Bool.cond_true, List.mem_singleton] at hs
    exact hs ▸ hfs0
  | true =>
  rw [hep] at hs
  simp only [Bool.not_true, Bool.cond_false] at hs
  cases hev : o.evalSymlinksOk with
  | false =>
    rw [hev] at hs
    simp only [Bool.not_false, Bool.cond_true, List.mem_singleton] at hs
    exact hs ▸ hfs0
  | true =>
  rw [hev] at hs
  simp only [Bool.not_true, Bool.cond_false] at hs
  rw [htgt] at hs
  simp only [Option.isSome_some, Bool.and_true] at hs
  cases hst : o.statOk with
  | false =>
    rw [hst] at hs
    simp only [Bool.not_false, Bool.cond_true, List.mem_singleton] at hs
    exact hs ▸ hfs0
  | true =>
  rw [hst] at hs
  simp only [Bool.not_true, Bool.cond_false] at hs
  cases how : o.openWriteOk with
  | false =>
    rw [how] at hs
    simp only [Bool.not_false, Bool.cond_true, List.mem_cons, List.mem_singleton,
      List.not_mem_nil, or_false] at hs
    rcases hs with rfl | rfl | rfl
    · exact hfs0
    · exact Or.inr hbakB
    · exact restore_keeps orig o.restoreOk _ hbakB
  | true =>
  rw [how] at hs
  simp only [Bool.not_true, Bool.cond_false] at hs
  cases hcp : o.copyOk with
  | false =>
    rw [hcp] at hs
    simp only [Bool.not_false, Bool.cond_true, List.mem_cons, List.mem_singleton,
      List.not_mem_nil, or_false] at hs
    rcases hs with rfl | rfl | rfl | rfl | rfl
    · exact hfs0
    · exact Or.inr hbakB
    · exact Or.inr htrB
    · exact Or.inr hhwB
    · exact restore_keeps orig o.restoreOk _ hhwB
  | true =>
  rw [hcp] at hs
  simp only [Bool.not_true, Bool.cond_false] at hs
  cases hor : o.openReadOk with
  | false =>
    rw [hor] at hs
    simp only [Bool.not_false, Bool.cond_true, List.mem_cons, List.mem_singleton,
      List.not_mem_nil, or_false] at hs
    rcases hs with rfl | rfl | rfl | rfl
    · exact hfs0
    · exact Or.inr hbakB
    · exact Or.inr htrB
    · exact Or.inr hwrB
  | true =>
  rw [hor] at hs
  simp only [Bool.not_true, Bool.cond_false] at hs
  cases hhc : o.hashCopyOk with
  | false =>
    rw [hhc] at hs
    simp only [Bool.not_false, Bool.cond_true, List.mem_cons, List.mem_singleton,
      List.not_mem_nil, or_false] at hs
    rcases hs with rfl | rfl | rfl | rfl | rfl
    · exact hfs0
    · exact Or.inr hbakB
    · exact Or.inr htrB
    · exact Or.inr hwrB
    · exact restore_keeps orig o.restoreOk _ hwrB
  | true =>
  rw [hhc] at hs
  simp only [Bool.not_true, Bool.cond_false] at hs
  cases hmb : o.checksumBody != hexEncode (o.md5 o.artifact) with
  | true =>
    rw [hmb] at hs
    simp only [Bool.cond_true, List.mem_cons, List.mem_singleton,
      List.not_mem_nil, or_false] at hs
    rcases hs with rfl | rfl | rfl | rfl | rfl
    · exact hfs0
    · exact Or.inr hbakB
    · exact Or.inr htrB
    · exact Or.inr hwrB
    · exact restore_keeps orig o.restoreOk _ hwrB
  | false =>
  rw [hmb] at hs
  simp only [Bool.cond_false] at hs
  cases hsuf : hasSuffix d ".tgz".toList with
  | false =>
    rw [hsuf] at hs
    simp only [Bool.cond_false] at hs
    rcases downloadUpdateFinish_pre o d c _ _ s hs with hp | rfl | rfl
    · simp only [List.mem_cons, List.mem_singleton, List.not_mem_nil, or_false] at hp
      rcases hp with rfl | rfl | rfl | rfl
      · exact hfs0
      · exact Or.inr hbakB
      · exact Or.inr htrB
      · exact Or.inr hwrB
    · exact restore_keeps orig o.restoreOk _ hwrB
    · exact Or.inr hwrB
  | true =>
    rw [hsuf] at hs
    simp only [Bool.cond_true] at hs
    cases hu : (untgzFile o (written o fs0)).err with
    | some e =>
      rw [hu] at hs
      simp only [List.mem_append, List.mem_cons, List.mem_singleton,
        List.not_mem_nil, or_false] at hs
      rcases hs with ((rfl | rfl | rfl | rfl) | hmem) | rfl
      · exact hfs0
      · exact Or.inr hbakB
      · exact Or.inr htrB
      · exact Or.inr hwrB
      · exact Or.inr ((untgz_pre_backup o (written o fs0) s hmem).trans hwrB)
      · exact restore_keeps orig o.restoreOk _ huB
    | none =>
      rw [hu] at hs
      rcases downloadUpdateFinish_pre o d c _ _ s hs with hp | rfl | rfl
      · simp only [List.mem_append, List.mem_cons, List.mem_singleton,
          List.not_mem_nil, or_false] at hp
        rcases hp with (rfl | rfl | rfl | rfl) | hmem
        · exact hfs0
        · exact Or.inr hbakB
        · exact Or.inr htrB
        · exact Or.inr hwrB
        · exact Or.inr ((untgz_pre_backup o (written o fs0) s hmem).trans hwrB)
      · exact restore_keeps orig o.restoreOk _ huB
      · exact Or.inr huB

/-- Witness for `backup_invariant_before_commit`: in the all-ok run on
target content `[1]`, the state right after the backup rename keeps the
original parked at the backup path. -/
theorem backup_invariant_before_commit_witness :
    fsDemo.target = some [1] ∧ oracleAllOk.renameBackupOk = true
    ∧ (⟨none, some [1]⟩ : FS) ∈
        (downloadUpdate oracleAllOk ['d'] ['c'] ['v'] fsDemo).pre
    ∧ KeepsOriginal [1] (⟨none, some [1]⟩ : FS) := by
  refine ⟨rfl, rfl, by decide, ?_⟩
  exact backup_invariant_before_commit oracleAllOk ['d'] ['c'] ['v'] fsDemo [1]
    rfl rfl ⟨none, some [1]⟩ (by decide)

/-- C2 counterexample: when the (unchecked) backup rename fails and the
truncating open succeeds, the attempt visits a pre-commit state in which
the original `[1]` is neither at the target (truncated to `[]`) nor at the
backup path — the invariant fails for that interleaving. -/
theorem backup_invariant_cex :
    fsDemo.target = some [1]
    ∧ (⟨some [], none⟩ : FS) ∈
        (downloadUpdate oracleNoRename ['d'] ['c'] ['v'] fsDemo).pre
    ∧ ¬ KeepsOriginal [1] (⟨some [], none⟩ : FS) := by
  refine ⟨by decide, by decide, by decide⟩

end S3Update
